import Mathlib

/-!
# Verification of the branch-thinking-mcp knowledge-graph engine

A shallow embedding of `src/branchManager.ts` (class `BranchManager`): the
branch/thought data model, `createBranch`, `addThought` (with its advanced
insight generation and branch-metric recomputation), `mergeBranches`, the
embedding cache (`hashContent`, `truncateText`, `embedText`), the task
extractor (`extractTasks`), and the full cross-reference and scoring pass
(`updateAllCrossRefsAndScores`).

Modelling conventions:
* JavaScript numbers are modelled as `ℚ` (exact rationals).  Every claim
  checked here is about the formula/shape of a computation, not about IEEE
  rounding.  Division is Lean's total division on `ℚ` (`x / 0 = 0`); the only
  place JS would produce `NaN` instead (average of an empty list) is noted at
  the definition.
* `Date.now()` / `new Date()` are modelled by an explicit `now : ℚ`
  (milliseconds) threaded into the operations that read the clock, and
  `Date.toISOString()` by a `now : String` where only the string is stored.
* JS `Map` insertion-order semantics are modelled by association lists:
  `set` replaces the first entry with the key (keeping its position) or
  appends, `delete` removes it, iteration is list order.
* The branches map of the manager always satisfies `key = branch.id` (every
  `set` site in the source passes the branch's own id), so it is modelled as
  a `List ThoughtBranch` keyed by the `id` field.
* `lru-cache` bounds/TTL only evict entries (they never change a stored
  value); the capacity/TTL machinery is time-dependent and is elided, caches
  are unbounded association lists.
* Disk persistence of the task store (`loadTasks`/`saveTasks`) is, per the
  single-process design, a mirror of the in-memory list; the load/save round
  trip is modelled as the identity on the state's `tasks` field.
* The `@xenova/transformers` pipeline is an external collaborator; it is an
  opaque parameter `gateway : String → List ℚ` and the state counts its
  invocations in `gatewayCalls`.
-/

namespace BranchThinking

/-- JS `ToInt32` (the `|0` coercion and the result type of `<<`):
wrap an integer into `[-2^31, 2^31)`. -/
def toInt32 (x : Int) : Int := (x + 2 ^ 31) % 2 ^ 32 - 2 ^ 31

/-- One step of `hashContent`'s loop:
`hash = ((hash << 5) - hash) + content.charCodeAt(i); hash |= 0;`.
`hash << 5` is itself a 32-bit operation in JS, hence the inner `toInt32`. -/
def hashStep (h : Int) (c : Nat) : Int := toInt32 (toInt32 (h * 32) - h + c)

/-- `hashContent` from `branchManager.ts`: the Java-style 31× rolling hash of
the UTF-16 code units, wrapped to 32-bit at every step, rendered in decimal
(`hash.toString()`).  Contents used in this development are ASCII, where
`Char.toNat` equals `charCodeAt`. -/
def hashContent (content : String) : String :=
  toString (content.toList.foldl (fun h ch => hashStep h ch.toNat) 0)

/-- `text.split(/\s+/)`, one pass over the characters.  `skipping = true`
while inside a whitespace run (the run collapses into one separator). -/
def jsSplitWsAux (skipping : Bool) : List Char → List Char → List String
  | [], cur => [String.mk cur.reverse]
  | c :: cs, cur =>
    if skipping then
      if c.isWhitespace then jsSplitWsAux true cs []
      else jsSplitWsAux false cs [c]
    else
      if c.isWhitespace then
        String.mk cur.reverse :: jsSplitWsAux true cs []
      else jsSplitWsAux false cs (c :: cur)

/-- `text.split(/\s+/)`: split on maximal whitespace runs.  A leading run
yields a leading `""` and a trailing run a trailing `""`, as in JS. -/
def jsSplitWs (s : String) : List String := jsSplitWsAux false s.toList []

/-- `truncateText` from `branchManager.ts`.  The source first tries
`require("js-tiktoken")` inside a `try`; the module is compiled as ESM where
`require` is undefined, so that branch always throws and the catch-block
word-based fallback is the operative path: split on whitespace and keep the
first `maxTokens` words. -/
def truncateText (text : String) (maxTokens : Nat := 512) : String :=
  let words := jsSplitWs text
  if words.length > maxTokens then String.intercalate " " (words.take maxTokens)
  else text

/-- `Math.sqrt`, modelled on `ℚ` via `Nat.sqrt` on numerator and denominator.
Exact whenever the argument is the square of a rational; every vector fed to
`cosineSimilarity` in this development has norm exactly 1, where
`jsSqrt 1 = 1` agrees with `Math.sqrt`. -/
def jsSqrt (q : ℚ) : ℚ := (Nat.sqrt q.num.toNat : ℚ) / (Nat.sqrt q.den : ℚ)

/-- `cosineSimilarity` from `branchManager.ts`.  The source loop runs over
`a.length` reading `b[i]`; both vectors always come from the same embedding
model, so lengths agree and the loop is the pointwise sum below.
Division by a zero norm is JS `NaN`; in `ℚ` it is 0 (such vectors never
clear the similarity threshold either way). -/
def cosineSimilarity (a b : List ℚ) : ℚ :=
  let dot := (List.zipWith (· * ·) a b).sum
  let normA := (a.map (fun x => x * x)).sum
  let normB := (b.map (fun x => x * x)).sum
  dot / (jsSqrt normA * jsSqrt normB)

/-- JS truthiness for an optional string: `undefined`/`null` and `""` are
falsy. -/
def isFalsyStrOpt : Option String → Bool
  | none => true
  | some v => v == ""

/-- First-occurrence deduplication: the iteration order of a JS `Set` /
object keys (insertion order). -/
def firstDedup (l : List String) : List String :=
  l.foldl (fun acc x => if x ∈ acc then acc else acc ++ [x]) []

/-- `Array.prototype.slice(-n)`: the last `n` elements. -/
def lastN {α : Type} (n : Nat) (l : List α) : List α := l.drop (l.length - n)

/-- `String.prototype.slice(0, n)` (code points; contents are ASCII). -/
def jsSlice0 (s : String) (n : Nat) : String := String.mk (s.toList.take n)

/-- `String.prototype.toLowerCase()` (ASCII). -/
def jsToLower (s : String) : String := s.map Char.toLower

/-- Does `hay` start with `needle`? -/
def listStartsWith : List Char → List Char → Bool
  | _, [] => true
  | [], _ :: _ => false
  | h :: hs, n :: ns => h == n && listStartsWith hs ns

/-- Is `needle` a contiguous segment of `hay`? -/
def listContainsSub : List Char → List Char → Bool
  | hay, needle =>
    if listStartsWith hay needle then true
    else match hay with
      | [] => false
      | _ :: hs => listContainsSub hs needle

/-- `String.prototype.includes(needle)`. -/
def strIncludes (hay needle : String) : Bool :=
  listContainsSub hay.toList needle.toList

/-! ## Association-list maps (JS `Map` semantics) -/

def mapGet {α : Type} (m : List (String × α)) (k : String) : Option α :=
  (m.find? (fun p => p.1 == k)).map (·.2)

/-- `Map.set`: replace in place if the key exists, else append. -/
def mapSet {α : Type} (m : List (String × α)) (k : String) (v : α) :
    List (String × α) :=
  if (m.find? (fun p => p.1 == k)).isSome then
    m.map (fun p => if p.1 == k then (k, v) else p)
  else m ++ [(k, v)]

/-- `Map.delete`. -/
def mapDelete {α : Type} (m : List (String × α)) (k : String) :
    List (String × α) :=
  m.eraseP (fun p => p.1 == k)

/-! ## Data model (`types.ts`) -/

structure ThoughtLink where
  toThoughtId : String
  type : String
  reason : Option String
deriving DecidableEq, Repr

structure CrossRefEntry where
  toThoughtId : String
  score : ℚ
  type : String
deriving DecidableEq, Repr

structure ThoughtMetadata where
  type : String
  confidence : ℚ
  keyPoints : List String
deriving DecidableEq, Repr

structure ThoughtData where
  id : String
  content : String
  branchId : String
  profileId : Option String
  timestamp : ℚ
  metadata : ThoughtMetadata
  linkedThoughts : Option (List ThoughtLink)
  score : Option ℚ
  crossRefs : Option (List CrossRefEntry)
deriving DecidableEq, Repr

structure Insight where
  id : String
  type : String
  content : String
  context : List String
  parentInsights : Option (List String)
  applicabilityScore : ℚ
deriving DecidableEq, Repr

structure CrossReference where
  id : String
  fromBranch : String
  toBranch : String
  type : String
  reason : String
  strength : ℚ
deriving DecidableEq, Repr

structure ThoughtBranch where
  id : String
  parentBranchId : Option String
  state : String
  priority : ℚ
  confidence : ℚ
  thoughts : List ThoughtData
  insights : List Insight
  crossRefs : List CrossReference
  score : Option ℚ
deriving DecidableEq, Repr

structure AuditEntry where
  action : String
  user : String
  timestamp : String
deriving DecidableEq, Repr

structure TaskItem where
  id : String
  branchId : String
  thoughtId : String
  type : String
  content : String
  status : String
  assignee : String
  due : String
  priority : ℚ
  createdAt : String
  updatedAt : String
  creator : String
  lastEditor : String
  auditTrail : List AuditEntry
  stale : Bool
deriving DecidableEq, Repr

structure Profile where
  id : String
  name : String
deriving DecidableEq, Repr

structure BranchCrossRefInput where
  toBranch : String
  type : String
  reason : String
  strength : ℚ
deriving DecidableEq, Repr

structure BranchingThoughtInput where
  content : String
  branchId : Option String
  parentBranchId : Option String
  type : String
  profileId : Option String
  thoughtCrossRefs : Option (List ThoughtLink)
  confidence : Option ℚ
  keyPoints : Option (List String)
  relatedInsights : Option (List String)
  crossRefs : Option (List BranchCrossRefInput)
  skipExtractTasks : Option Bool
deriving DecidableEq, Repr

/-- The mutable fields of `class BranchManager` used by the operations under
verification.  `idSeed` abstracts the timestamp/random pair of `generateId`
(a supply of fresh ids); `gatewayCalls` counts embedding-pipeline
invocations. -/
structure ManagerState where
  branches : List ThoughtBranch
  activeBranchId : Option String
  insightCounter : Nat
  crossRefCounter : Nat
  thoughtCounter : Nat
  historyCache : List (String × String)
  statusCache : List (String × String)
  summaryCache : List (String × String)
  insightsCache : List (String × List Insight)
  embeddingLRU : List (String × List ℚ)
  embeddingCache : List (String × List ℚ)
  embeddings : List (String × List ℚ)
  tasks : List TaskItem
  profiles : List Profile
  skipNextTaskExtraction : Bool
  gatewayCalls : Nat
  idSeed : Nat
deriving DecidableEq, Repr

/-- The all-fields-empty manager (a fresh `new BranchManager()`). -/
def emptyState : ManagerState :=
  { branches := [], activeBranchId := none, insightCounter := 0,
    crossRefCounter := 0, thoughtCounter := 0, historyCache := [],
    statusCache := [], summaryCache := [], insightsCache := [],
    embeddingLRU := [], embeddingCache := [], embeddings := [], tasks := [],
    profiles := [], skipNextTaskExtraction := false, gatewayCalls := 0,
    idSeed := 0 }

/-! ## Branch map helpers (the `branches : Map<string, ThoughtBranch>`) -/

def branchGet (bs : List ThoughtBranch) (branchId : String) :
    Option ThoughtBranch :=
  bs.find? (fun b => b.id == branchId)

def branchSet (bs : List ThoughtBranch) (b : ThoughtBranch) :
    List ThoughtBranch :=
  if (bs.find? (fun x => x.id == b.id)).isSome then
    bs.map (fun x => if x.id == b.id then b else x)
  else bs ++ [b]

def branchDelete (bs : List ThoughtBranch) (branchId : String) :
    List ThoughtBranch :=
  bs.eraseP (fun b => b.id == branchId)

/-! ## Graph-store operations -/

/-- `generateId(prefix)`: a fresh `prefix-…` id from the supply. -/
def generateId (tag : String) (s : ManagerState) : String × ManagerState :=
  (tag ++ "-" ++ toString s.idSeed, { s with idSeed := s.idSeed + 1 })

/-- `createBranch` from `branchManager.ts`: unconditionally build a fresh
empty branch, `set` it into the map, and make it active when no branch is
active yet (JS truthiness on `activeBranchId`). -/
def createBranch (branchId : String) (parentBranchId : Option String)
    (s : ManagerState) : ManagerState × ThoughtBranch :=
  let branch : ThoughtBranch :=
    { id := branchId, parentBranchId := parentBranchId, state := "active",
      priority := 1, confidence := 1, thoughts := [], insights := [],
      crossRefs := [], score := none }
  let s := { s with branches := branchSet s.branches branch }
  let s :=
    if isFalsyStrOpt s.activeBranchId then
      { s with activeBranchId := some branchId }
    else s
  (s, branch)

/-- `getBranch`. -/
def getBranch (s : ManagerState) (branchId : String) : Option ThoughtBranch :=
  branchGet s.branches branchId

/-- `createInsight`: increments the counter, applicability 1.0. -/
def createInsight (s : ManagerState) (type content : String)
    (context : List String) (parentInsights : Option (List String)) :
    ManagerState × Insight :=
  let n := s.insightCounter + 1
  ({ s with insightCounter := n },
   { id := "insight-" ++ toString n, type := type, content := content,
     context := context, parentInsights := parentInsights,
     applicabilityScore := 1 })

/-- `createCrossReference`. -/
def createCrossReference (s : ManagerState)
    (fromBranch toBranch type reason : String) (strength : ℚ) :
    ManagerState × CrossReference :=
  let n := s.crossRefCounter + 1
  ({ s with crossRefCounter := n },
   { id := "xref-" ++ toString n, fromBranch := fromBranch,
     toBranch := toBranch, type := type, reason := reason,
     strength := strength })

/-- `updateBranchMetrics`.  For an empty branch JS produces `NaN` averages;
Lean's total `ℚ` division yields 0 there (no claim below reads the metric
fields of an empty branch).  `i.applicabilityScore || 1` maps a zero score
to 1 (JS falsiness). -/
def updateBranchMetrics (now : ℚ) (branch : ThoughtBranch) : ThoughtBranch :=
  let avgConfidence :=
    ((branch.thoughts.map (fun t => t.metadata.confidence)).sum) /
      (branch.thoughts.length : ℚ)
  let insightScore :=
    ((branch.insights.map
        (fun i => if i.applicabilityScore == 0 then 1
                  else i.applicabilityScore)).sum) * 0.1
  let crossRefScore := ((branch.crossRefs.map (fun r => r.strength)).sum) * 0.1
  let recencyScore :=
    match branch.thoughts.getLast? with
    | some last => max 0 (1 - (now - last.timestamp) / 3600000)
    | none => 0
  let keyPointSet := firstDedup (branch.thoughts.flatMap
    (fun t => t.metadata.keyPoints))
  let diversityScore := (keyPointSet.length : ℚ) * 0.05
  { branch with
      priority := avgConfidence + insightScore + crossRefScore +
                  recencyScore + diversityScore,
      confidence := avgConfidence }

/-- One step of the `parentIds.forEach` loops of `generateAdvancedInsights`:
push a `builds_upon` self cross-reference recording that the new insight
builds on a prior one. -/
def buildsUponStep (insId : String) (acc : ManagerState × ThoughtBranch)
    (pid : String) : ManagerState × ThoughtBranch :=
  let cc := createCrossReference acc.1 acc.2.id acc.2.id "builds_upon"
    ("Insight " ++ insId ++ " builds on " ++ pid) 1
  (cc.1, { acc.2 with crossRefs := acc.2.crossRefs ++ [cc.2] })

def positiveWords : List String :=
  ["good", "great", "positive", "success", "improve", "yes"]

def negativeWords : List String :=
  ["bad", "fail", "negative", "problem", "issue", "no"]

/-- `generateAdvancedInsights`: frequent-key-point insight (with
`builds_upon` self cross-references) followed by the sentiment-trend
insight.  In JS the `parentInsights` field aliases the live `parentIds`
array; the claims below never read `parentInsights`, and it is modelled by
the value of the array at insight-creation time. -/
def generateAdvancedInsights (s : ManagerState) (branch : ThoughtBranch) :
    ManagerState × ThoughtBranch :=
  let parentIds0 := branch.insights.map (fun i => i.id)
  let allKPs := branch.thoughts.flatMap (fun t => t.metadata.keyPoints)
  let frequentKeyPoints := (firstDedup allKPs).filter
    (fun kp => allKPs.count kp > 1)
  let stage1 : ManagerState × ThoughtBranch × List String :=
    if frequentKeyPoints.isEmpty then (s, branch, parentIds0)
    else
      let ci := createInsight s "behavioral_pattern"
        ("Frequent key points detected: " ++
          String.intercalate ", " frequentKeyPoints)
        frequentKeyPoints (some parentIds0)
      let insight := ci.2
      let branch := { branch with insights := branch.insights ++ [insight] }
      let s := { ci.1 with insightsCache := mapSet ci.1.insightsCache branch.id (lastN 10 branch.insights) }
      let fold1 := parentIds0.foldl (buildsUponStep insight.id) (s, branch)
      (fold1.1, fold1.2, parentIds0 ++ [insight.id])
  let s := stage1.1
  let branch := stage1.2.1
  let parentIds := stage1.2.2
  let pos := (branch.thoughts.filter (fun t =>
    positiveWords.any (fun w => strIncludes (jsToLower t.content) w))).length
  let neg := (branch.thoughts.filter (fun t =>
    !(positiveWords.any (fun w => strIncludes (jsToLower t.content) w)) &&
    negativeWords.any (fun w => strIncludes (jsToLower t.content) w))).length
  let neu := branch.thoughts.length - pos - neg
  if pos > 0 ∨ neg > 0 then
    let sentiment :=
      if pos > neg then "positive" else if neg > pos then "negative"
      else "mixed"
    let ci := createInsight s "observation"
      ("Branch sentiment trend: " ++ sentiment ++ " (" ++ toString pos ++
        " positive, " ++ toString neg ++ " negative, " ++ toString neu ++
        " neutral)") [] (some parentIds)
    let insight := ci.2
    let branch := { branch with insights := branch.insights ++ [insight] }
    let s := { ci.1 with insightsCache := mapSet ci.1.insightsCache branch.id (lastN 10 branch.insights) }
    parentIds.foldl (buildsUponStep insight.id) (s, branch)
  else (s, branch)

/-! ## `addThought` -/

/-- The up-front validation of one `addThought` input item, in source order:
empty/whitespace-only content first, then an explicitly provided (truthy)
profile id that is not in the profiles map.  Returns the error message the
source would `throw`. -/
def itemError (s : ManagerState) (item : BranchingThoughtInput) :
    Option String :=
  if item.content.trim == "" then some "Thought content cannot be empty"
  else
    match item.profileId with
    | some p =>
      if p != "" && (s.profiles.find? (fun pr => pr.id == p)).isNone then
        some ("Profile not found: " ++ p)
      else none
    | none => none

/-- `item.branchId || this.activeBranchId || this.generateId('branch')`
(JS `||`: `undefined`/`""` fall through). -/
def resolveBranchId (s : ManagerState) (item : BranchingThoughtInput) :
    String × ManagerState :=
  match item.branchId with
  | some b =>
    if b != "" then (b, s)
    else
      match s.activeBranchId with
      | some a => if a != "" then (a, s) else generateId "branch" s
      | none => generateId "branch" s
  | none =>
    match s.activeBranchId with
    | some a => if a != "" then (a, s) else generateId "branch" s
    | none => generateId "branch" s

/-- The caller-supplied branch-level cross-references of one item: push the
forward reference on the current branch and, when the target branch exists,
a reduced `[Auto]` reverse reference on it.  When the target *is* the
current branch (in JS the map holds the same live object), the reverse
reference lands on the local branch as well. -/
def applyBranchCrossRefs (refs : List BranchCrossRefInput)
    (s : ManagerState) (branch : ThoughtBranch) :
    ManagerState × ThoughtBranch :=
  refs.foldl
    (fun acc ref =>
      let cf := createCrossReference acc.1 acc.2.id ref.toBranch
        ref.type ref.reason ref.strength
      let s := cf.1
      let branch := { acc.2 with crossRefs := acc.2.crossRefs ++ [cf.2] }
      if ref.toBranch == branch.id then
        let cr := createCrossReference s ref.toBranch branch.id
          ref.type ("[Auto] " ++ ref.reason) ref.strength
        (cr.1, { branch with crossRefs := branch.crossRefs ++ [cr.2] })
      else
        match branchGet s.branches ref.toBranch with
        | some target =>
          let cr := createCrossReference s ref.toBranch branch.id
            ref.type ("[Auto] " ++ ref.reason) ref.strength
          ({ cr.1 with branches := branchSet cr.1.branches { target with crossRefs := target.crossRefs ++ [cr.2] } }, branch)
        | none => (s, branch))
    (s, branch)

/-- The mutation part of one `addThought` item (runs after `itemError` is
`none`).  The branch object is threaded as a local value and written back to
the map at the end of the item; in JS the map holds the live object, and all
mid-item reads of it are routed to the local value (see
`applyBranchCrossRefs`). -/
def applyItem (now : ℚ) (s : ManagerState) (item : BranchingThoughtInput) :
    ManagerState × ThoughtData :=
  let rb := resolveBranchId s item
  let branchId := rb.1
  let sb :=
    match branchGet rb.2.branches branchId with
    | some b => (rb.2, b)
    | none => createBranch branchId item.parentBranchId rb.2
  let branch0 := sb.2
  let n := sb.1.thoughtCounter + 1
  let s := { sb.1 with thoughtCounter := n }
  let confidence :=
    match item.confidence with
    | none => 1
    | some c => if c == 0 then 1 else c   -- `item.confidence || 1.0`
  let keyPoints := item.keyPoints.getD []
  let thought : ThoughtData :=
    { id := "thought-" ++ toString n, content := item.content,
      branchId := branch0.id, profileId := item.profileId, timestamp := now,
      metadata := { type := item.type, confidence := confidence,
                    keyPoints := keyPoints },
      linkedThoughts := none, score := none, crossRefs := none }
  let score := confidence + (keyPoints.length : ℚ) * 0.1 +
    ((item.crossRefs.getD []).length : ℚ) * 0.2 +
    ((item.thoughtCrossRefs.getD []).length : ℚ) * 0.2
  let thought := { thought with score := some score }
  let ci := createInsight s "observation"
    ("Auto-generated insight from thought: " ++ jsSlice0 thought.content 50)
    [thought.id] none
  let branch1 := { branch0 with insights := branch0.insights ++ [ci.2] }
  let s := { ci.1 with insightsCache := mapSet ci.1.insightsCache branch1.id (lastN 10 branch1.insights) }
  let thought :=
    match item.thoughtCrossRefs with
    | some refs =>
      { thought with linkedThoughts := some (refs.map (fun r =>
          { toThoughtId := r.toThoughtId, type := r.type,
            reason := r.reason })) }
    | none => thought
  let branch2 := { branch1 with thoughts := branch1.thoughts ++ [thought] }
  let sk :=
    match item.keyPoints with
    | some kps =>   -- JS: a provided array is truthy even when empty
      let ck := createInsight s "observation"
        ("Identified key points: " ++ String.intercalate ", " kps)
        [item.type] item.relatedInsights
      let branch3 := { branch2 with insights := branch2.insights ++ [ck.2] }
      ({ ck.1 with insightsCache := mapSet ck.1.insightsCache branchId (lastN 10 branch3.insights) }, branch3)
    | none => (s, branch2)
  let sc :=
    match item.crossRefs with
    | some refs => applyBranchCrossRefs refs sk.1 sk.2
    | none => sk
  let sg := generateAdvancedInsights sc.1 sc.2
  let branch4 := updateBranchMetrics now sg.2
  let s := { sg.1 with branches := branchSet sg.1.branches branch4 }
  let s := { s with historyCache := mapDelete s.historyCache branchId,
                    statusCache := mapDelete s.statusCache branchId }
  (s, thought)

/-- One loop iteration of `addThought`: validate, then mutate. -/
def processItem (now : ℚ) (s : ManagerState) (item : BranchingThoughtInput) :
    ManagerState × Except String ThoughtData :=
  match itemError s item with
  | some e => (s, Except.error e)
  | none =>
    let r := applyItem now s item
    (r.1, Except.ok r.2)

/-- The `for (const item of inputs)` loop: a thrown error aborts the loop
and keeps all mutations of completed items (JS exceptions do not roll back
`this`).  Returns the last added thought (`undefined`, i.e. `none`, for an
empty input array). -/
def processItems (now : ℚ) (s : ManagerState)
    (items : List BranchingThoughtInput) :
    ManagerState × Except String (Option ThoughtData) :=
  match items with
  | [] => (s, Except.ok none)
  | item :: rest =>
    let r := processItem now s item
    match r.2 with
    | Except.ok t =>
      let r2 := processItems now r.1 rest
      match r2.2 with
      | Except.ok none => (r2.1, Except.ok (some t))
      | Except.ok (some t') => (r2.1, Except.ok (some t'))
      | Except.error e => (r2.1, Except.error e)
    | Except.error e => (r.1, Except.error e)

/-- `this.skipNextTaskExtraction = inputs.some(item => item.skipExtractTasks
=== true)`, run before the loop. -/
def withSkipFlag (s : ManagerState) (input : List BranchingThoughtInput) :
    ManagerState :=
  { s with skipNextTaskExtraction :=
      input.any (fun item => item.skipExtractTasks == some true) }

/-- `addThought` from `branchManager.ts`: set the skip-task-extraction flag
from the whole batch, then process the items in order. -/
def addThought (now : ℚ) (s : ManagerState)
    (input : List BranchingThoughtInput) :
    ManagerState × Except String (Option ThoughtData) :=
  processItems now (withSkipFlag s input) input

/-! ## `mergeBranches` -/

/-- `mergeBranches` from `branchManager.ts`.  When source and target are the
same id, JS appends each of the live object's lists to itself (the spread is
evaluated before the push), doubling them, and then deletes the branch. -/
def mergeBranches (now : ℚ) (sourceBranchId targetBranchId : String)
    (s : ManagerState) : ManagerState × Except String ThoughtBranch :=
  match branchGet s.branches sourceBranchId,
        branchGet s.branches targetBranchId with
  | some source, some target =>
    let merged := { target with
        thoughts := target.thoughts ++ source.thoughts,
        insights := target.insights ++ source.insights,
        crossRefs := target.crossRefs ++ source.crossRefs }
    let merged := updateBranchMetrics now merged
    let s := { s with branches := branchSet s.branches merged }
    let s := { s with branches := branchDelete s.branches sourceBranchId }
    let s :=
      if s.activeBranchId == some sourceBranchId then
        { s with activeBranchId := some targetBranchId }
      else s
    (s, Except.ok merged)
  | _, _ => (s, Except.error "Cannot merge: branch not found")

/-! ## Cache invalidation helper and the embedding cache -/

/-- `invalidateCachesFor` from `branchManager.ts` (defined in the source
with the doc comment “Invalidate caches for a given thought or branch.
Call after mutation.”, but never invoked by any method). -/
def invalidateCachesFor (thoughtId branchId : Option String)
    (s : ManagerState) : ManagerState :=
  let s :=
    match thoughtId with
    | some t =>
      if t != "" then { s with embeddingCache := mapDelete s.embeddingCache t }
      else s
    | none => s
  match branchId with
  | some b =>
    if b != "" then { s with summaryCache := mapDelete s.summaryCache b }
    else s
  | none => s

/-- `embedText` from `branchManager.ts`: key both caches by
`hashContent(text)` — the hash of the **untruncated** text — check the LRU,
then the larger cache (promoting a hit to the LRU), and only on a double
miss invoke the pipeline on the truncated text and store the vector under
the key.  `gateway` is the embedding pipeline (plus its output adapter);
`gatewayCalls` counts its invocations. -/
def embedText (gateway : String → List ℚ) (text : String)
    (s : ManagerState) : ManagerState × List ℚ :=
  let key := hashContent text
  match mapGet s.embeddingLRU key with
  | some v => (s, v)
  | none =>
    match mapGet s.embeddingCache key with
    | some emb => ({ s with embeddingLRU := mapSet s.embeddingLRU key emb }, emb)
    | none =>
      let truncated := truncateText text
      let embedding := gateway truncated
      ({ s with
          embeddingLRU := mapSet s.embeddingLRU key embedding,
          embeddingCache := mapSet s.embeddingCache key embedding,
          gatewayCalls := s.gatewayCalls + 1 }, embedding)

/-! ## `extractTasks` -/

/-- One match of the task regex
`/(?<type>TODO|FIXME|ACTION|TASK)(?:\((?<assignee>\w+)\))?:?\s*(?<description>.+?)(?:\s+by\s+(?<due>\d{4}-\d{2}-\d{2}))?(?=\n|$)/gi`
over a thought's content: the match offset (`match.index`) and the named
capture groups. -/
structure TaskMatch where
  index : Nat
  type : Option String
  assignee : Option String
  description : Option String
  due : Option String
deriving DecidableEq, Repr

/-- Build the `TaskItem` for one regex match, exactly as `extractTasks`
does: the id is `task-<branchId>-<thoughtId>-<match.index>`; `type || 'TASK'`,
`description?.trim() || ''`, `assignee || ''`, `due || ''`. -/
def taskFromMatch (now : String) (branchId thoughtId : String)
    (m : TaskMatch) : TaskItem :=
  { id := "task-" ++ branchId ++ "-" ++ thoughtId ++ "-" ++ toString m.index,
    branchId := branchId, thoughtId := thoughtId,
    type := match m.type with
      | some t => if t == "" then "TASK" else t
      | none => "TASK",
    content := match m.description with
      | some d => d.trim
      | none => "",
    status := "open",
    assignee := m.assignee.getD "", due := m.due.getD "", priority := 3,
    createdAt := now, updatedAt := now, creator := "", lastEditor := "",
    auditTrail := [], stale := false }

/-- The scan order of `extractTasks`: for each branch in scope, for each of
its thoughts, each regex match in order — flattened into one list of
(branchId, thoughtId, match) triples. -/
def matchTriples (matcher : String → List TaskMatch)
    (branches : List ThoughtBranch) : List (String × String × TaskMatch) :=
  branches.flatMap (fun b => b.thoughts.flatMap (fun th =>
    (matcher th.content).map (fun m => (b.id, th.id, m))))

/-- The branch scope of `extractTasks`: one branch when a truthy branch id
is given (empty scope when it is unknown), else every branch. -/
def taskScope (branchId? : Option String) (s : ManagerState) :
    List ThoughtBranch :=
  if isFalsyStrOpt branchId? then s.branches
  else
    match branchGet s.branches (branchId?.getD "") with
    | some b => [b]
    | none => []

/-- One match step of `extractTasks`: build the task, append it to the
store unless a stored task already has its id, and record it in the found
list regardless. -/
def taskStep (now : String) (acc : List TaskItem × List TaskItem)
    (tr : String × String × TaskMatch) : List TaskItem × List TaskItem :=
  let task := taskFromMatch now tr.1 tr.2.1 tr.2.2
  ((if acc.1.any (fun t => t.id == task.id) then acc.1
    else acc.1 ++ [task]),
   acc.2 ++ [task])

/-- `extractTasks` from `branchManager.ts`, parameterized by the (pure,
deterministic) regex scan `matcher : String → List TaskMatch`.  The
persistent store round trip (`loadTasks`/`saveTasks`) mirrors the in-memory
`tasks` list in this single-process model.  A found task is appended to the
store only when no stored task has its id; the returned list contains every
match regardless. -/
def extractTasks (matcher : String → List TaskMatch) (now : String)
    (branchId? : Option String) (s : ManagerState) :
    ManagerState × List TaskItem :=
  let res := (matchTriples matcher (taskScope branchId? s)).foldl
    (taskStep now) (s.tasks, [])
  ({ s with tasks := res.1 }, res.2)

/-! ## The cross-reference and scoring pass (`updateAllCrossRefsAndScores`)

The pass reads only the `branches` structure and the `embeddings` map, and
rewrites `crossRefs` and `score` fields in place; it is modelled as a
function on `List ThoughtBranch`, parameterized by the embeddings map and
the clock. -/

def crossRefThreshold : ℚ := 0.7

def multiHopThreshold : ℚ := 0.5

/-- The flat `allThoughts` array built at the start of the pass (branch
iteration order, then thought order). -/
def allThoughtsOf (bs : List ThoughtBranch) : List ThoughtData :=
  bs.flatMap (fun b => b.thoughts)

/-- A stable descending insertion by `score` — the effect of
`sort((a, b) => b.score - a.score)` (ES2019+ `Array.prototype.sort` is
stable). -/
def insertDesc (x : CrossRefEntry) : List CrossRefEntry → List CrossRefEntry
  | [] => [x]
  | y :: ys => if x.score ≥ y.score then x :: y :: ys else y :: insertDesc x ys

def sortByScoreDesc (l : List CrossRefEntry) : List CrossRefEntry :=
  l.foldr insertDesc []

/-- The candidate list of the direct-similarity pass for one thought with
embedding `embA`: every other thought of the corpus whose embedding exists
and whose cosine similarity exceeds the 0.7 threshold, in corpus order,
classified `very similar` above 0.85 and `related` otherwise. -/
def simsFor (emb : List (String × List ℚ)) (all : List ThoughtData)
    (t : ThoughtData) (embA : List ℚ) : List CrossRefEntry :=
  all.filterMap (fun u =>
    if u.id == t.id then none
    else
      match mapGet emb u.id with
      | none => none
      | some embB =>
        let sim := cosineSimilarity embA embB
        if sim > crossRefThreshold then
          some { toThoughtId := u.id, score := sim,
                 type := if sim > 0.85 then "very similar" else "related" }
        else none)

/-- The per-thought step of the direct pass: with an embedding, sort the
candidates and keep the top 3; without one the thought is skipped (it keeps
its previous `crossRefs`). -/
def phase1Thought (emb : List (String × List ℚ)) (all : List ThoughtData)
    (t : ThoughtData) : ThoughtData :=
  match mapGet emb t.id with
  | none => t
  | some embA =>
    let kept := (sortByScoreDesc (simsFor emb all t embA)).take 3
    { t with crossRefs := some kept }

/-- Direct pass: the loop reads only immutable fields and the embeddings
map, so it is a pure map over the input. -/
def phase1 (emb : List (String × List ℚ)) (bs : List ThoughtBranch) :
    List ThoughtBranch :=
  let all := allThoughtsOf bs
  bs.map (fun b =>
    { b with thoughts := b.thoughts.map (phase1Thought emb all) })

/-- Flat positions (branch index, thought index) of every thought, in
iteration order. -/
def positionsOf (bs : List ThoughtBranch) : List (Nat × Nat) :=
  (List.range bs.length).flatMap (fun bi =>
    match bs.get? bi with
    | none => []
    | some b => (List.range b.thoughts.length).map (fun ti => (bi, ti)))

def getThoughtAt (bs : List ThoughtBranch) (bi ti : Nat) :
    Option ThoughtData :=
  match bs.get? bi with
  | none => none
  | some b => b.thoughts.get? ti

def setThoughtAt (bs : List ThoughtBranch) (bi ti : Nat) (t : ThoughtData) :
    List ThoughtBranch :=
  match bs.get? bi with
  | none => bs
  | some b => bs.set bi { b with thoughts := b.thoughts.set ti t }

/-- Position of the first thought with the given id, in flat order
(`allThoughts.find(x => x.id === …)`). -/
def findThoughtPosAux (tid : String) (bi : Nat) :
    List ThoughtBranch → Option (Nat × Nat)
  | [] => none
  | b :: rest =>
    match b.thoughts.findIdx? (fun t => t.id == tid) with
    | some ti => some (bi, ti)
    | none => findThoughtPosAux tid (bi + 1) rest

def findThoughtPos (bs : List ThoughtBranch) (tid : String) :
    Option (Nat × Nat) :=
  findThoughtPosAux tid 0 bs

/-- First half of the repair step for one cross-ref entry: materialise the
found thought's `crossRefs` array when absent (`other.crossRefs = other.crossRefs || []`
writes back an empty array). -/
def phase2Materialize (bs : List ThoughtBranch) (q : Nat × Nat)
    (other : ThoughtData) : List ThoughtBranch × ThoughtData :=
  match other.crossRefs with
  | none =>
    let other2 := { other with crossRefs := some [] }
    (setThoughtAt bs q.1 q.2 other2, other2)
  | some _ => (bs, other)

/-- Second half of the repair step: if the found thought has no entry back
to `t` and the pairwise similarity (recomputed from the embeddings) still
exceeds the threshold, push the reciprocal entry and re-sort/re-truncate to
the top 3. -/
def phase2Push (emb : List (String × List ℚ)) (t : ThoughtData)
    (bs : List ThoughtBranch) (q : Nat × Nat) (other : ThoughtData) :
    List ThoughtBranch :=
  let ocrs := other.crossRefs.getD []
  if (ocrs.find? (fun x => x.toThoughtId == t.id)).isSome then bs
  else
    match mapGet emb t.id, mapGet emb other.id with
    | some embA, some embB =>
      let sim := cosineSimilarity embA embB
      if sim > crossRefThreshold then
        let entry : CrossRefEntry :=
          { toThoughtId := t.id, score := sim,
            type := if sim > 0.85 then "very similar" else "related" }
        let newList := (sortByScoreDesc (ocrs ++ [entry])).take 3
        setThoughtAt bs q.1 q.2 { other with crossRefs := some newList }
      else bs
    | _, _ => bs

/-- Bidirectional-repair step for one cross-ref entry `cr` of the thought
`t`: find the first thought with the target id, materialise its array, then
repair. -/
def phase2Entry (emb : List (String × List ℚ)) (t : ThoughtData)
    (bs : List ThoughtBranch) (cr : CrossRefEntry) : List ThoughtBranch :=
  match findThoughtPos bs cr.toThoughtId with
  | none => bs
  | some q =>
    match getThoughtAt bs q.1 q.2 with
    | none => bs
    | some other =>
      let pr := phase2Materialize bs q other
      phase2Push emb t pr.1 q pr.2

/-- Bidirectional-repair step for the thought at one position: iterate its
cross-ref entries.  (The thought's own list is only mutated through
`phase2Entry` when it is the found `other`, which requires an entry pointing
at itself — then the back-reference check finds that very entry and nothing
is pushed, so iterating the snapshot is faithful.) -/
def phase2Step (emb : List (String × List ℚ)) (bs : List ThoughtBranch)
    (p : Nat × Nat) : List ThoughtBranch :=
  match getThoughtAt bs p.1 p.2 with
  | none => bs
  | some t =>
    match t.crossRefs with
    | none => bs
    | some crs => crs.foldl (phase2Entry emb t) bs

def phase2 (emb : List (String × List ℚ)) (bs : List ThoughtBranch) :
    List ThoughtBranch :=
  (positionsOf bs).foldl (phase2Step emb) bs

/-- The cross-ref list of the first thought with id `tid`, as seen during
the multi-hop loops of the thought at `selfPos` whose list has grown to
`selfAcc`: in JS `allThoughts.find` returns the live object, so when the
found thought *is* the one being processed its current (grown) list is
read. -/
def hopListFor (bs : List ThoughtBranch) (selfPos : Nat × Nat)
    (selfAcc : List CrossRefEntry) (tid : String) :
    Option (Option (List CrossRefEntry)) :=
  match findThoughtPos bs tid with
  | none => none
  | some q =>
    if q = selfPos then some (some selfAcc)
    else (getThoughtAt bs q.1 q.2).map (fun t => t.crossRefs)

/-- The 2-hop loop of one thought.  JS iterates `for (const cr1 of
t.crossRefs)` while pushing onto the same array, so appended entries are
themselves visited: modelled by an index into the growing accumulator.
Every push has a target that is absent from the current accumulator, so the
loop terminates; `fuel` (chosen generously by the caller) bounds the
traversal. -/
def twoHopGo (bs : List ThoughtBranch) (selfPos : Nat × Nat) (tId : String)
    (directIds : List String) :
    Nat → Nat → List CrossRefEntry → List CrossRefEntry
  | 0, _, acc => acc
  | fuel + 1, i, acc =>
    match acc.get? i with
    | none => acc
    | some cr1 =>
      let acc1 :=
        match hopListFor bs selfPos acc cr1.toThoughtId with
        | none => acc
        | some none => acc
        | some (some t2crs) =>
          t2crs.foldl (fun acc cr2 =>
            if cr2.toThoughtId == tId || directIds.contains cr2.toThoughtId
            then acc
            else
              let pathScore := min cr1.score cr2.score
              if pathScore > multiHopThreshold &&
                 (acc.find? (fun x => x.toThoughtId == cr2.toThoughtId)).isNone
              then acc ++ [{ toThoughtId := cr2.toThoughtId,
                             score := pathScore, type := "multi-hop" }]
              else acc) acc
      twoHopGo bs selfPos tId directIds fuel (i + 1) acc1

/-- The 3-hop loop: like the 2-hop loop one level deeper; a candidate is
skipped when it is the thought itself, in the direct-id snapshot, or already
present as a `multi-hop` entry. -/
def threeHopGo (bs : List ThoughtBranch) (selfPos : Nat × Nat) (tId : String)
    (directIds : List String) :
    Nat → Nat → List CrossRefEntry → List CrossRefEntry
  | 0, _, acc => acc
  | fuel + 1, i, acc =>
    match acc.get? i with
    | none => acc
    | some cr1 =>
      let acc1 :=
        match hopListFor bs selfPos acc cr1.toThoughtId with
        | none => acc
        | some none => acc
        | some (some t2crs) =>
          t2crs.foldl (fun acc cr2 =>
            match hopListFor bs selfPos acc cr2.toThoughtId with
            | none => acc
            | some none => acc
            | some (some t3crs) =>
              t3crs.foldl (fun acc cr3 =>
                if cr3.toThoughtId == tId ||
                   directIds.contains cr3.toThoughtId ||
                   (acc.find? (fun x => x.toThoughtId == cr3.toThoughtId &&
                     x.type == "multi-hop")).isSome
                then acc
                else
                  let pathScore := min cr1.score (min cr2.score cr3.score)
                  if pathScore > multiHopThreshold then
                    acc ++ [{ toThoughtId := cr3.toThoughtId,
                              score := pathScore, type := "multi-hop" }]
                  else acc) acc) acc
      threeHopGo bs selfPos tId directIds fuel (i + 1) acc1

/-- Total cross-ref entries in the store — used to size the loop fuel. -/
def totalCrossRefEntries (bs : List ThoughtBranch) : Nat :=
  ((allThoughtsOf bs).map (fun t => (t.crossRefs.getD []).length)).sum

/-- Multi-hop step for the thought at one position: snapshot the direct
target ids, run the 2-hop then the 3-hop loop, then sort descending and keep
the top 6.  Thoughts with no `crossRefs` array are skipped (an empty array
is truthy in JS and is processed). -/
def phase3Step (bs : List ThoughtBranch) (p : Nat × Nat) :
    List ThoughtBranch :=
  match getThoughtAt bs p.1 p.2 with
  | none => bs
  | some t =>
    match t.crossRefs with
    | none => bs
    | some crs =>
      let directIds := crs.map (fun cr => cr.toThoughtId)
      let fuel := totalCrossRefEntries bs + (allThoughtsOf bs).length +
        crs.length + 1
      let acc1 := twoHopGo bs p t.id directIds fuel 0 crs
      let fuel2 := fuel + acc1.length
      let acc2 := threeHopGo bs p t.id directIds fuel2 0 acc1
      setThoughtAt bs p.1 p.2
        { t with crossRefs := some ((sortByScoreDesc acc2).take 6) }

def phase3 (bs : List ThoughtBranch) : List ThoughtBranch :=
  (positionsOf bs).foldl phase3Step bs

/-- `recencyBonus`: 1 below one day of age, 0.5 below seven days, else 0. -/
def recencyBonus (now ts : ℚ) : ℚ :=
  let diffDays := (now - ts) / 86400000
  if diffDays < 1 then 1 else if diffDays < 7 then 0.5 else 0

/-- `diversityBonus`: the number of distinct branch ids among the resolved
cross-ref targets, capped at 5 and normalised. -/
def diversityBonus (crossRefs : List CrossRefEntry)
    (all : List ThoughtData) : ℚ :=
  let ids := firstDedup (crossRefs.filterMap (fun cr =>
    (all.find? (fun t => t.id == cr.toThoughtId)).map (fun t => t.branchId)))
  min ((ids.length : ℚ) / 5) 1

/-- The scoring step for one thought (reads the final cross-ref lists). -/
def scoreThought (now : ℚ) (all : List ThoughtData) (t : ThoughtData) :
    ThoughtData :=
  let crs := t.crossRefs.getD []
  let directSum :=
    ((crs.filter (fun cr => cr.type != "multi-hop")).map
      (fun cr => cr.score)).sum
  let multiHopSum :=
    ((crs.filter (fun cr => cr.type == "multi-hop")).map
      (fun cr => cr.score)).sum
  let degree : ℚ := (crs.length : ℚ)
  let recency := recencyBonus now t.timestamp
  let diversity :=
    match t.crossRefs with
    | none => 0
    | some crs => diversityBonus crs all
  let confidence := t.metadata.confidence
  let keyPoints : ℚ := (t.metadata.keyPoints.length : ℚ)
  { t with score := some (0.5 * directSum + 0.25 * multiHopSum +
      0.2 * degree + 0.1 * recency + 0.1 * diversity + 0.2 * confidence +
      0.1 * keyPoints) }

/-- The scoring phase: every thought's score, then each branch's score as
the mean of its thoughts' scores (0 when empty).  The `allThoughts` array
the source built at the start of the pass is read only for the immutable
`id`/`branchId` fields, so the flat list of the current state is
equivalent. -/
def scoringPhase (now : ℚ) (bs : List ThoughtBranch) : List ThoughtBranch :=
  let all := allThoughtsOf bs
  bs.map (fun b =>
    let thoughts := b.thoughts.map (scoreThought now all)
    { b with thoughts := thoughts,
             score := some (if thoughts.length > 0 then
                ((thoughts.map (fun t => t.score.getD 0)).sum) /
                  (thoughts.length : ℚ)
              else 0) })

/-- `updateAllCrossRefsAndScores`: direct pass, bidirectional repair,
multi-hop propagation, scoring. -/
def updateAllCrossRefsAndScores (emb : List (String × List ℚ)) (now : ℚ)
    (bs : List ThoughtBranch) : List ThoughtBranch :=
  scoringPhase now (phase3 (phase2 emb (phase1 emb bs)))

/-- The per-thought bound C4 states for the full pass: at most 6 entries,
sorted descending by score. -/
def good6 (t : ThoughtData) : Prop :=
  (t.crossRefs.getD []).length ≤ 6 ∧
  (t.crossRefs.getD []).Pairwise
    (fun a b : CrossRefEntry => b.score ≤ a.score)

/-- `good6` for whatever thought sits at a given position. -/
def GoodAt (bs : List ThoughtBranch) (q : Nat × Nat) : Prop :=
  ∀ t, getThoughtAt bs q.1 q.2 = some t → good6 t

/-- Every thought's cross-ref list holds at most 3 entries. -/
def cap3 (bs : List ThoughtBranch) : Prop :=
  ∀ t ∈ allThoughtsOf bs, (t.crossRefs.getD []).length ≤ 3

/-- Whether a thought's cross-ref list holds an entry pointing at the
given thought id. -/
def hasRefTo (t : ThoughtData) (tid : String) : Bool :=
  ((t.crossRefs.getD []).find? (fun x => x.toThoughtId == tid)).isSome

/-- The candidate entry the direct pass builds for a target id at a given
similarity. -/
def simEntry (uid : String) (sim : ℚ) : CrossRefEntry :=
  { toThoughtId := uid, score := sim,
    type := if sim > 0.85 then "very similar" else "related" }

/-- Every thought's `crossRefs` array is materialised. -/
def AllRefsSome (bs : List ThoughtBranch) : Prop :=
  ∀ t ∈ allThoughtsOf bs, t.crossRefs.isSome = true

/-- Every cross-ref entry is reciprocated by every thought carrying the
target id. -/
def MutualRefs (bs : List ThoughtBranch) : Prop :=
  ∀ t ∈ allThoughtsOf bs, ∀ e ∈ t.crossRefs.getD [],
    ∀ u ∈ allThoughtsOf bs, u.id = e.toThoughtId → hasRefTo u t.id = true

/-! ## Spec-side scoring formula (transcribed from the specified formula,
to be compared with the code) -/

/-- The specified recency bonus: 1 under one day of age, 0.5 under seven
days, else 0. -/
def specRecencyBonus (now ts : ℚ) : ℚ :=
  if (now - ts) / 86400000 < 1 then 1
  else if (now - ts) / 86400000 < 7 then 0.5 else 0

/-- The specified diversity bonus: the number of unique branches among the
resolved cross-ref targets, divided by 5 and capped at 1. -/
def specDiversityBonus (crs : List CrossRefEntry)
    (all : List ThoughtData) : ℚ :=
  min (((firstDedup (crs.filterMap (fun cr =>
    (all.find? (fun t => t.id == cr.toThoughtId)).map
      (fun t => t.branchId)))).length : ℚ) / 5) 1

/-- The specified thought score:
`0.5·Σ(direct scores) + 0.25·Σ(multi-hop scores) + 0.2·degree +
0.1·recency + 0.1·diversity + 0.2·confidence + 0.1·keyPointCount`. -/
def specThoughtScore (now : ℚ) (all : List ThoughtData) (t : ThoughtData) : ℚ :=
  0.5 * (((t.crossRefs.getD []).filter
      (fun cr => cr.type != "multi-hop")).map (fun cr => cr.score)).sum +
  0.25 * (((t.crossRefs.getD []).filter
      (fun cr => cr.type == "multi-hop")).map (fun cr => cr.score)).sum +
  0.2 * ((t.crossRefs.getD []).length : ℚ) +
  0.1 * specRecencyBonus now t.timestamp +
  0.1 * specDiversityBonus (t.crossRefs.getD []) all +
  0.2 * t.metadata.confidence +
  0.1 * (t.metadata.keyPoints.length : ℚ)

/-- The specified branch score: the arithmetic mean of the thoughts'
scores, 0 for an empty branch. -/
def specBranchScore (ths : List ThoughtData) : ℚ :=
  if ths.length > 0 then
    ((ths.map (fun t => t.score.getD 0)).sum) / (ths.length : ℚ)
  else 0

/-! ## Concrete sample states used by the evaluation theorems -/

/-- A minimal thought value (defaults for the optional fields). -/
def sampleThought (id content branchId : String) : ThoughtData :=
  { id := id, content := content, branchId := branchId, profileId := none,
    timestamp := 0,
    metadata := { type := "analysis", confidence := 1, keyPoints := [] },
    linkedThoughts := none, score := none, crossRefs := none }

/-- A minimal branch value holding the given thoughts. -/
def sampleBranch (id : String) (ths : List ThoughtData) : ThoughtBranch :=
  { id := id, parentBranchId := none, state := "active", priority := 1,
    confidence := 1, thoughts := ths, insights := [], crossRefs := [],
    score := none }

/-- A minimal `addThought` input item with the given content and branch. -/
def sampleItem (content : String) (branchId : Option String) :
    BranchingThoughtInput :=
  { content := content, branchId := branchId, parentBranchId := none,
    type := "analysis", profileId := none, thoughtCrossRefs := none,
    confidence := none, keyPoints := none, relatedInsights := none,
    crossRefs := none, skipExtractTasks := none }

instance {ε α : Type} [DecidableEq ε] [DecidableEq α] :
    DecidableEq (Except ε α) := fun a b =>
  match a, b with
  | Except.ok x, Except.ok y =>
    if h : x = y then Decidable.isTrue (by rw [h])
    else Decidable.isFalse (by intro hc; cases hc; exact h rfl)
  | Except.error x, Except.error y =>
    if h : x = y then Decidable.isTrue (by rw [h])
    else Decidable.isFalse (by intro hc; cases hc; exact h rfl)
  | Except.ok _, Except.error _ => Decidable.isFalse (by intro hc; cases hc)
  | Except.error _, Except.ok _ => Decidable.isFalse (by intro hc; cases hc)

/-- The state of the C1 scenario: one branch `b1`, with a formatted-history
entry, a formatted-status entry and a branch summary already cached for
it. -/
def c1State : ManagerState :=
  { emptyState with
      branches := [sampleBranch "b1" []]
      activeBranchId := some "b1"
      historyCache := [("b1", "cached history")]
      statusCache := [("b1", "cached status")]
      summaryCache := [("b1", "stale summary")] }

/-- The state of the C2 scenario: the store already holds a branch `a` with
one thought. -/
def c2State : ManagerState :=
  { emptyState with
      branches := [sampleBranch "a" [sampleThought "thought-1" "keep me" "a"]]
      activeBranchId := some "a"
      thoughtCounter := 1 }

/-- The state of the C6 scenario: the store knows only branch `main`. -/
def c6State : ManagerState :=
  { emptyState with
      branches := [sampleBranch "main" []]
      activeBranchId := some "main" }

/-- The shared prefix of the C7 texts: 513 repetitions of the two
characters `a` and space. -/
def wC7 : List Char := (List.replicate 513 ['a', ' ']).flatten

/-- First C7 text: 513 `a`-words and a final word `b` — 514 words, more
than the 512-word truncation budget, so the differing final word is cut
away by `truncateText`. -/
def t1C7 : String := String.mk (wC7 ++ ['b'])

/-- Second C7 text: same 513 `a`-words, final word `c`. -/
def t2C7 : String := String.mk (wC7 ++ ['c'])

/-- Decimal read-back of a digit list (the left inverse used to prove
`Nat.repr` injective). -/
def decodeF (l : List Char) (acc : Nat) : Nat :=
  l.foldl (fun a c => a * 10 + (c.toNat - 48)) acc

/-- The input branch of the C5 witness scenario. -/
def c5In : ThoughtBranch := sampleBranch "b" [sampleThought "t1" "w" "b"]

/-- The branch produced by a full recompute pass over the C5 input. -/
def c5OutBranch : ThoughtBranch :=
  (updateAllCrossRefsAndScores [] 0 [c5In]).getD 0 (sampleBranch "x" [])

/-- Its single (scored) thought. -/
def c5OutThought : ThoughtData :=
  c5OutBranch.thoughts.getD 0 (sampleThought "x" "x" "x")

/-- The C4 witness store: one branch with one embedded thought. -/
def c4In : ThoughtBranch := sampleBranch "b4" [sampleThought "t4" "w" "b4"]

/-- Its embeddings map: the single thought has a (unit) embedding. -/
def c4Emb : List (String × List ℚ) := [("t4", [1])]

/-- The thought after the full pass over the C4 store. -/
def c4OutThought : ThoughtData :=
  ((updateAllCrossRefsAndScores c4Emb 0 [c4In]).getD 0
    (sampleBranch "x" [])).thoughts.getD 0 (sampleThought "x" "x" "x")

/-- The thought after only the direct and repair passes. -/
def c4MidThought : ThoughtData :=
  ((phase2 c4Emb (phase1 c4Emb [c4In])).getD 0
    (sampleBranch "x" [])).thoughts.getD 0 (sampleThought "x" "x" "x")

/-- The C3 counterexample store: eight thoughts on one branch, two
clusters of four.  All embeddings are exact rational unit vectors. -/
def c3Branch : ThoughtBranch :=
  sampleBranch "m"
    [sampleThought "A" "A" "m", sampleThought "a1" "a1" "m",
     sampleThought "a2" "a2" "m", sampleThought "a3" "a3" "m",
     sampleThought "B" "B" "m", sampleThought "b1" "b1" "m",
     sampleThought "b2" "b2" "m", sampleThought "b3" "b3" "m"]

/-- The C3 embeddings: `A` and `B` are similar (55/73 > 0.7), but each has
three same-cluster neighbours that are far more similar, while every other
cross-cluster pair stays below 0.7. -/
def c3Emb : List (String × List ℚ) :=
  [("A", [1, 0]),
   ("a1", [264/265, -23/265]),
   ("a2", [9951/10049, -1400/10049]),
   ("a3", [437/445, -84/445]),
   ("B", [55/73, 48/73]),
   ("b1", [20/29, 21/29]),
   ("b2", [969/1481, 1120/1481]),
   ("b3", [3/5, 4/5])]

/-- The C3 witness store: just the two similar thoughts. -/
def c3wBranch : ThoughtBranch :=
  sampleBranch "m2" [sampleThought "A" "wa" "m2", sampleThought "B" "wb" "m2"]

def c3wEmb : List (String × List ℚ) := [("A", [1, 0]), ("B", [55/73, 48/73])]

/-- The two thoughts of the witness store after the direct and repair
passes. -/
def c3wOutA : ThoughtData :=
  ((phase2 c3wEmb (phase1 c3wEmb [c3wBranch])).getD 0
    (sampleBranch "x" [])).thoughts.getD 0 (sampleThought "x" "x" "x")

def c3wOutB : ThoughtData :=
  ((phase2 c3wEmb (phase1 c3wEmb [c3wBranch])).getD 0
    (sampleBranch "x" [])).thoughts.getD 1 (sampleThought "x" "x" "x")

set_option maxRecDepth 100000

/-- C1: for an `addThought` call that appends a thought to branch `b1`, the
formatted-history and formatted-status caches are indeed cleared, but the
branch-summary cache still holds its pre-mutation entry when the call
returns — `addThought` deletes only `historyCache` and `statusCache` and
never touches `summaryCache` (the `invalidateCachesFor` helper that would
is never called), so a summary request within the cache TTL is served the
stale value.  This evaluates the code at the failing input of the claim. -/
theorem addThought_leaves_stale_summary_cache :
    (addThought 0 c1State [sampleItem "hello world" (some "b1")]).2 =
      Except.ok (some { sampleThought "thought-1" "hello world" "b1" with
        score := some 1 }) ∧
    (getBranch (addThought 0 c1State [sampleItem "hello world" (some "b1")]).1
      "b1").map (fun b => b.thoughts.length) = some 1 ∧
    mapGet (addThought 0 c1State [sampleItem "hello world" (some "b1")]).1.historyCache
      "b1" = none ∧
    mapGet (addThought 0 c1State [sampleItem "hello world" (some "b1")]).1.statusCache
      "b1" = none ∧
    mapGet (addThought 0 c1State [sampleItem "hello world" (some "b1")]).1.summaryCache
      "b1" = some "stale summary" := by
  decide!

/-- C2: `createBranch` is **not** idempotent-if-absent: calling it with an
id that is already present replaces the stored branch by a fresh empty one,
discarding its thoughts.  Evaluating the code at the failing input: branch
`a` holds one thought before the call and none after. -/
theorem createBranch_overwrites_existing_branch :
    getBranch c2State "a" =
      some (sampleBranch "a" [sampleThought "thought-1" "keep me" "a"]) ∧
    getBranch (createBranch "a" none c2State).1 "a" =
      some (sampleBranch "a" []) ∧
    sampleBranch "a" [] ≠
      sampleBranch "a" [sampleThought "thought-1" "keep me" "a"] := by
  decide!

/-- C6 (counterexample): an `addThought` item that explicitly references
the branch id `ghost`, which is not present in the store, does **not**
surface a `ValidationError`: the call succeeds and silently creates branch
`ghost` holding the new thought. -/
theorem addThought_unknown_branch_no_error :
    (addThought 0 c6State [sampleItem "hello" (some "ghost")]).2 =
      Except.ok (some { sampleThought "thought-1" "hello" "ghost" with
        score := some 1 }) ∧
    (getBranch (addThought 0 c6State [sampleItem "hello" (some "ghost")]).1
      "ghost").map (fun b => b.thoughts.length) = some 1 := by
  decide!

/-! ## Lemmas about the branch map -/

theorem branchGet_eq_none_of_not_mem (bs : List ThoughtBranch) (a : String)
    (h : a ∉ bs.map (fun b => b.id)) : branchGet bs a = none := by
  unfold branchGet
  rw [List.find?_eq_none]
  intro b hb he
  rw [beq_iff_eq] at he
  exact h (he ▸ List.mem_map_of_mem (fun b => b.id) hb)

theorem branchGet_branchDelete_self (bs : List ThoughtBranch) (a : String)
    (hnd : (bs.map (fun b => b.id)).Nodup) :
    branchGet (branchDelete bs a) a = none := by
  induction bs with
  | nil => rfl
  | cons x rest ih =>
    simp only [List.map_cons, List.nodup_cons] at hnd
    unfold branchDelete
    rw [List.eraseP_cons]
    by_cases hx : x.id = a
    · simp only [hx, beq_self_eq_true, cond_true]
      exact branchGet_eq_none_of_not_mem rest a (hx ▸ hnd.1)
    · have hbx : (x.id == a) = false := beq_eq_false_iff_ne.mpr hx
      simp only [hbx, cond_false]
      unfold branchGet
      rw [List.find?_cons_of_neg _ (by simp [hbx])]
      exact ih hnd.2

theorem branchSet_ids_nodup (bs : List ThoughtBranch) (b : ThoughtBranch)
    (hnd : (bs.map (fun x => x.id)).Nodup) :
    ((branchSet bs b).map (fun x => x.id)).Nodup := by
  unfold branchSet
  split
  · have : ((bs.map (fun x => if x.id == b.id then b else x)).map
        (fun x => x.id)) = bs.map (fun x => x.id) := by
      rw [List.map_map]
      apply List.map_congr_left
      intro x _
      by_cases h : x.id = b.id
      · simp [Function.comp, h]
      · simp [Function.comp, beq_eq_false_iff_ne.mpr h]
    rw [this]
    exact hnd
  · rename_i hfind
    have hnone : bs.find? (fun x => x.id == b.id) = none := by
      cases hh : bs.find? (fun x => x.id == b.id) with
      | none => rfl
      | some z => rw [hh] at hfind; simp at hfind
    have hall := List.find?_eq_none.mp hnone
    rw [List.map_append, List.nodup_append]
    refine ⟨hnd, by simp, fun a ha hb => ?_⟩
    rw [List.mem_map] at ha
    obtain ⟨y, hy, rfl⟩ := ha
    simp only [List.map_cons, List.map_nil, List.mem_singleton] at hb
    have := hall y hy
    simp [hb] at this

/-- `updateBranchMetrics` only rewrites the metric fields. -/
theorem updateBranchMetrics_id (now : ℚ) (b : ThoughtBranch) :
    (updateBranchMetrics now b).id = b.id := rfl

/-- C10: merging a branch into itself first duplicates its thoughts,
insights and cross-references (the spreads are evaluated before the pushes)
and then deletes the branch from the store: the call succeeds, returns the
doubled branch, and `getBranch` afterwards returns not-found — the content
is lost rather than the call being rejected or a no-op. -/
theorem mergeBranches_self_duplicates_then_deletes
    (now : ℚ) (s : ManagerState) (a : String) (br : ThoughtBranch)
    (h : getBranch s a = some br)
    (hnd : (s.branches.map (fun b => b.id)).Nodup) :
    (mergeBranches now a a s).2 = Except.ok (updateBranchMetrics now
      { br with thoughts := br.thoughts ++ br.thoughts,
                insights := br.insights ++ br.insights,
                crossRefs := br.crossRefs ++ br.crossRefs }) ∧
    getBranch (mergeBranches now a a s).1 a = none := by
  unfold getBranch at h
  have hid : br.id = a := by
    have := List.find?_some h
    rwa [beq_iff_eq] at this
  unfold mergeBranches
  rw [h]
  refine ⟨rfl, ?_⟩
  show getBranch (if _ then _ else _) a = none
  unfold getBranch
  split
  all_goals
    exact branchGet_branchDelete_self _ a
      (branchSet_ids_nodup s.branches _ hnd)

/-! ## Batch `addThought` aborts at the first failing item (C9) -/

/-- A generic fold invariant. -/
theorem foldl_preserves {σ α : Type} (P : σ → Prop) (f : σ → α → σ)
    (hf : ∀ x a, P x → P (f x a)) :
    ∀ (l : List α) (x : σ), P x → P (l.foldl f x) := by
  intro l
  induction l with
  | nil => intro x hx; exact hx
  | cons a l ih => intro x hx; exact ih (f x a) (hf x a hx)

theorem resolveBranchId_profiles (s : ManagerState)
    (item : BranchingThoughtInput) :
    (resolveBranchId s item).2.profiles = s.profiles := by
  unfold resolveBranchId
  cases item.branchId <;> cases s.activeBranchId <;>
    simp only [generateId] <;> (try split) <;> (try split) <;> rfl

theorem createBranch_profiles (bid : String) (p : Option String)
    (s : ManagerState) : (createBranch bid p s).1.profiles = s.profiles := by
  unfold createBranch
  dsimp only
  split <;> rfl

theorem applyBranchCrossRefs_profiles (refs : List BranchCrossRefInput)
    (s : ManagerState) (b : ThoughtBranch) :
    (applyBranchCrossRefs refs s b).1.profiles = s.profiles := by
  unfold applyBranchCrossRefs
  apply foldl_preserves
    (fun p : ManagerState × ThoughtBranch => p.1.profiles = s.profiles)
  · intro x a hx
    dsimp only
    split
    · exact hx
    · split
      · exact hx
      · exact hx
  · rfl

theorem foldl_buildsUpon_profiles (pr : List Profile) (insId : String)
    (l : List String) (mk : ManagerState × ThoughtBranch)
    (hmk : mk.1.profiles = pr) :
    (l.foldl (buildsUponStep insId) mk).1.profiles = pr := by
  apply foldl_preserves
    (fun p : ManagerState × ThoughtBranch => p.1.profiles = pr)
  · intro y a hy
    exact hy
  · exact hmk

theorem generateAdvancedInsights_profiles (s : ManagerState)
    (b : ThoughtBranch) :
    (generateAdvancedInsights s b).1.profiles = s.profiles := by
  unfold generateAdvancedInsights
  dsimp only
  split
  · split
    · apply foldl_buildsUpon_profiles
      rfl
    · rfl
  · split
    · apply foldl_buildsUpon_profiles
      exact foldl_buildsUpon_profiles _ _ _ _ rfl
    · exact foldl_buildsUpon_profiles _ _ _ _ rfl

theorem applyItem_profiles (now : ℚ) (s : ManagerState)
    (item : BranchingThoughtInput) :
    (applyItem now s item).1.profiles = s.profiles := by
  unfold applyItem
  dsimp only
  rw [generateAdvancedInsights_profiles]
  cases item.crossRefs <;> dsimp only
  case' some refs => rw [applyBranchCrossRefs_profiles]
  all_goals cases item.keyPoints <;> (try dsimp only [createInsight]) <;>
    (cases hb : branchGet (resolveBranchId s item).2.branches
        (resolveBranchId s item).1 <;>
      simp only [hb] <;>
      first
        | exact resolveBranchId_profiles s item
        | (rw [createBranch_profiles]; exact resolveBranchId_profiles s item))

theorem itemError_congr {s1 s2 : ManagerState}
    (h : s1.profiles = s2.profiles) (item : BranchingThoughtInput) :
    itemError s1 item = itemError s2 item := by
  unfold itemError
  rw [h]

theorem processItem_profiles (now : ℚ) (s : ManagerState)
    (item : BranchingThoughtInput) :
    (processItem now s item).1.profiles = s.profiles := by
  unfold processItem
  split
  · rfl
  · exact applyItem_profiles now s item

/-- The state reached by the loop does not depend on what comes after the
first failing item: one unfolding step of `processItems`. -/
theorem processItems_fst_cons (now : ℚ) (s : ManagerState)
    (x : BranchingThoughtInput) (xs : List BranchingThoughtInput)
    (hx : itemError s x = none) :
    (processItems now s (x :: xs)).1 =
      (processItems now (applyItem now s x).1 xs).1 := by
  simp only [processItems]
  unfold processItem
  rw [hx]
  dsimp only
  cases h2 : (processItems now (applyItem now s x).1 xs).2 with
  | ok o => cases o <;> simp [h2]
  | error _ => simp [h2]

theorem processItems_abort (now : ℚ) (s : ManagerState)
    (bad : BranchingThoughtInput) (post : List BranchingThoughtInput)
    (e : String) (hbad : itemError s bad = some e) :
    ∀ (pre : List BranchingThoughtInput) (s' : ManagerState),
      s'.profiles = s.profiles →
      (∀ it ∈ pre, itemError s it = none) →
      processItems now s' (pre ++ bad :: post) =
        ((processItems now s' pre).1, Except.error e) := by
  intro pre
  induction pre with
  | nil =>
    intro s' hp _
    have hb : itemError s' bad = some e := by
      rw [itemError_congr hp]; exact hbad
    simp only [List.nil_append, processItems]
    unfold processItem
    rw [hb]
  | cons x xs ih =>
    intro s' hp hall
    have hx : itemError s' x = none := by
      rw [itemError_congr hp]; exact hall x (List.mem_cons_self x xs)
    have hrec := ih (applyItem now s' x).1
      (by rw [applyItem_profiles]; exact hp)
      (fun it hit => hall it (List.mem_cons_of_mem _ hit))
    calc processItems now s' ((x :: xs) ++ bad :: post)
        = ((processItems now (applyItem now s' x).1 (xs ++ bad :: post)).1,
            Except.error e) := by
          simp only [List.cons_append, processItems]
          unfold processItem
          rw [hx]
          dsimp only
          simp only [List.append_eq]
          rw [hrec]
      _ = ((processItems now s' (x :: xs)).1, Except.error e) := by
          rw [hrec, processItems_fst_cons now s' x xs hx]

/-- C9: a batch `addThought` call processes its items in order and is
all-or-nothing per item: when every item of `pre` is valid and `bad` fails
validation (empty content or unknown profile, with message `e`), the call
returns exactly the error `e`, the resulting state is the state after
applying precisely the items of `pre` (no rollback), the failing item
contributes nothing, and no item after it is applied. -/
theorem addThought_batch_aborts_at_failing_item (now : ℚ)
    (s : ManagerState) (pre post : List BranchingThoughtInput)
    (bad : BranchingThoughtInput) (e : String)
    (hpre : ∀ it ∈ pre, itemError s it = none)
    (hbad : itemError s bad = some e) :
    addThought now s (pre ++ bad :: post) =
      ((processItems now (withSkipFlag s (pre ++ bad :: post)) pre).1,
        Except.error e) := by
  unfold addThought
  exact processItems_abort now s bad post e hbad pre
    (withSkipFlag s (pre ++ bad :: post)) rfl hpre

/-! ## An unknown branch id in `addThought` is created, not rejected (C6) -/

theorem branchGet_branchSet_self (bs : List ThoughtBranch)
    (b : ThoughtBranch) : branchGet (branchSet bs b) b.id = some b := by
  unfold branchSet
  split
  · rename_i hfound
    rw [Option.isSome_iff_exists] at hfound
    obtain ⟨x, hx⟩ := hfound
    induction bs with
    | nil => simp at hx
    | cons y rest ih =>
      rw [List.find?_cons] at hx
      unfold branchGet
      rw [List.map_cons]
      by_cases hy : y.id = b.id
      · rw [List.find?_cons_of_pos _ (by simp [hy])]
        simp [hy]
      · have hby : (y.id == b.id) = false := beq_eq_false_iff_ne.mpr hy
        rw [hby] at hx
        simp only [cond_false] at hx
        rw [List.find?_cons_of_neg _ (by simp [hby])]
        exact ih hx
  · unfold branchGet
    rw [List.find?_append]
    rename_i hnone
    have : bs.find? (fun x => x.id == b.id) = none := by
      cases hh : bs.find? (fun x => x.id == b.id) with
      | none => rfl
      | some z => rw [hh] at hnone; simp at hnone
    rw [this]
    simp [List.find?]

theorem buildsUponStep_branch (insId : String)
    (acc : ManagerState × ThoughtBranch) (pid : String) :
    (buildsUponStep insId acc pid).2.thoughts = acc.2.thoughts ∧
    (buildsUponStep insId acc pid).2.id = acc.2.id := ⟨rfl, rfl⟩

theorem foldl_buildsUpon_branch (b0 : ThoughtBranch) (insId : String)
    (l : List String) (mk : ManagerState × ThoughtBranch)
    (hmk : mk.2.thoughts = b0.thoughts ∧ mk.2.id = b0.id) :
    (l.foldl (buildsUponStep insId) mk).2.thoughts = b0.thoughts ∧
    (l.foldl (buildsUponStep insId) mk).2.id = b0.id := by
  apply foldl_preserves (fun p : ManagerState × ThoughtBranch =>
    p.2.thoughts = b0.thoughts ∧ p.2.id = b0.id)
  · intro y a hy
    exact hy
  · exact hmk

/-- `generateAdvancedInsights` only appends insights and cross-references:
the branch's thoughts and id are untouched. -/
theorem generateAdvancedInsights_branch (s : ManagerState)
    (b : ThoughtBranch) :
    (generateAdvancedInsights s b).2.thoughts = b.thoughts ∧
    (generateAdvancedInsights s b).2.id = b.id := by
  unfold generateAdvancedInsights
  dsimp only
  split
  · split
    · exact foldl_buildsUpon_branch b _ _ _ ⟨rfl, rfl⟩
    · exact ⟨rfl, rfl⟩
  · split
    · apply foldl_buildsUpon_branch
      exact foldl_buildsUpon_branch b _ _ _ ⟨rfl, rfl⟩
    · exact foldl_buildsUpon_branch b _ _ _ ⟨rfl, rfl⟩

/-- `applyBranchCrossRefs` only appends cross-references on branches. -/
theorem applyBranchCrossRefs_branch (refs : List BranchCrossRefInput)
    (s : ManagerState) (b : ThoughtBranch) :
    (applyBranchCrossRefs refs s b).2.thoughts = b.thoughts ∧
    (applyBranchCrossRefs refs s b).2.id = b.id := by
  unfold applyBranchCrossRefs
  apply foldl_preserves (fun p : ManagerState × ThoughtBranch =>
    p.2.thoughts = b.thoughts ∧ p.2.id = b.id)
  · intro y a hy
    dsimp only
    split
    · exact hy
    · split
      · exact hy
      · exact hy
  · exact ⟨rfl, rfl⟩

theorem updateBranchMetrics_thoughts (now : ℚ) (b : ThoughtBranch) :
    (updateBranchMetrics now b).thoughts = b.thoughts := rfl

theorem branchSet_lookup_thoughts (bs : List ThoughtBranch)
    (b4 : ThoughtBranch) (b : String) (hid : b4.id = b)
    (th : List ThoughtData) (hth : b4.thoughts = th) :
    (branchGet (branchSet bs b4) b).map (fun br => br.thoughts) = some th := by
  subst hid
  subst hth
  rw [branchGet_branchSet_self]
  rfl

set_option maxHeartbeats 1000000 in
/-- The thought returned by `applyItem` carries the resolved branch id. -/
theorem applyItem_branchId (now : ℚ) (s' : ManagerState)
    (item : BranchingThoughtInput) (b : String)
    (hrb : resolveBranchId s' item = (b, s'))
    (habsent : branchGet s'.branches b = none) :
    (applyItem now s' item).2.branchId = b := by
  rcases htc : item.thoughtCrossRefs with _ | tcr <;>
  (unfold applyItem
   rw [hrb]
   dsimp only
   rw [habsent]
   rw [htc]
   dsimp only [createBranch])

set_option maxHeartbeats 4000000 in
/-- The shape of `applyItem` when the resolved branch id is absent from the
store: the branch is created on the fly and ends up holding exactly the new
thought. -/
theorem applyItem_new_branch (now : ℚ) (s' : ManagerState)
    (item : BranchingThoughtInput) (b : String)
    (hrb : resolveBranchId s' item = (b, s'))
    (habsent : branchGet s'.branches b = none) :
    (branchGet (applyItem now s' item).1.branches b).map
      (fun br => br.thoughts) = some [(applyItem now s' item).2] := by
  rcases hkp : item.keyPoints with _ | kps <;>
    rcases hcr : item.crossRefs with _ | refs <;>
  (unfold applyItem
   rw [hrb]
   dsimp only
   rw [habsent]
   rw [hkp, hcr]
   dsimp only [createBranch]) <;>
  first
  | -- no caller-supplied branch cross-references
    exact branchSet_lookup_thoughts _ _ _
      (((updateBranchMetrics_id now _).trans
        ((generateAdvancedInsights_branch _ _).2)).trans rfl) _
      (((updateBranchMetrics_thoughts now _).trans
        ((generateAdvancedInsights_branch _ _).1)).trans rfl)
  | -- with caller-supplied branch cross-references
    exact branchSet_lookup_thoughts _ _ _
      (((updateBranchMetrics_id now _).trans
        (((generateAdvancedInsights_branch _ _).2).trans
          ((applyBranchCrossRefs_branch _ _ _).2))).trans rfl) _
      (((updateBranchMetrics_thoughts now _).trans
        (((generateAdvancedInsights_branch _ _).1).trans
          ((applyBranchCrossRefs_branch _ _ _).1))).trans rfl)

/-- C6 (amended): an `addThought` item that explicitly references a branch
id absent from the store does not fail — no `ValidationError` is raised for
an unknown branch (only an unknown profile or empty content fails); the
branch is created on the fly, the call returns the new thought, and the new
branch holds exactly that thought. -/
theorem addThought_unknown_branch_creates_branch (now : ℚ)
    (s : ManagerState) (item : BranchingThoughtInput) (b : String)
    (hb : item.branchId = some b) (hbne : b ≠ "")
    (habsent : branchGet s.branches b = none)
    (hvalid : itemError s item = none) :
    (addThought now s [item]).2 =
      Except.ok (some (applyItem now (withSkipFlag s [item]) item).2) ∧
    (getBranch (addThought now s [item]).1 b).map (fun br => br.thoughts) =
      some [(applyItem now (withSkipFlag s [item]) item).2] ∧
    (applyItem now (withSkipFlag s [item]) item).2.branchId = b := by
  have hvalid' : itemError (withSkipFlag s [item]) item = none := by
    rw [itemError_congr (rfl : (withSkipFlag s [item]).profiles = s.profiles)]
    exact hvalid
  have hok : addThought now s [item] =
      ((applyItem now (withSkipFlag s [item]) item).1,
        Except.ok (some (applyItem now (withSkipFlag s [item]) item).2)) := by
    unfold addThought
    simp only [processItems]
    unfold processItem
    rw [hvalid']
  have hrb : resolveBranchId (withSkipFlag s [item]) item =
      (b, withSkipFlag s [item]) := by
    unfold resolveBranchId
    rw [hb]
    simp [hbne]
  refine ⟨by rw [hok], ?_, ?_⟩
  · rw [hok]
    exact applyItem_new_branch now (withSkipFlag s [item]) item b hrb habsent
  · exact applyItem_branchId now (withSkipFlag s [item]) item b hrb habsent

/-- Witness for the amended C6 at the concrete store that only knows branch
`main`: adding a thought to the unknown branch `ghost` succeeds and creates
the branch. -/
theorem addThought_unknown_branch_creates_branch_witness :
    (addThought 0 c6State [sampleItem "hello" (some "ghost")]).2 =
      Except.ok (some (applyItem 0
        (withSkipFlag c6State [sampleItem "hello" (some "ghost")])
        (sampleItem "hello" (some "ghost"))).2) ∧
    (getBranch (addThought 0 c6State
        [sampleItem "hello" (some "ghost")]).1 "ghost").map
      (fun br => br.thoughts) =
      some [(applyItem 0
        (withSkipFlag c6State [sampleItem "hello" (some "ghost")])
        (sampleItem "hello" (some "ghost"))).2] ∧
    (applyItem 0 (withSkipFlag c6State [sampleItem "hello" (some "ghost")])
      (sampleItem "hello" (some "ghost"))).2.branchId = "ghost" :=
  addThought_unknown_branch_creates_branch 0 c6State
    (sampleItem "hello" (some "ghost")) "ghost" rfl (by decide)
    (by decide!) (by decide!)

/-- Witness for C9: a valid item, then an empty-content item, then another
item; the batch aborts at the empty item with the validation error and the
first item stays applied. -/
theorem addThought_batch_aborts_at_failing_item_witness :
    addThought 0 emptyState
        ([sampleItem "alpha" (some "b")] ++
          sampleItem "" (some "b") :: [sampleItem "gamma" (some "b")]) =
      ((processItems 0 (withSkipFlag emptyState
          ([sampleItem "alpha" (some "b")] ++
            sampleItem "" (some "b") :: [sampleItem "gamma" (some "b")]))
          [sampleItem "alpha" (some "b")]).1,
        Except.error "Thought content cannot be empty") :=
  addThought_batch_aborts_at_failing_item 0 emptyState
    [sampleItem "alpha" (some "b")] [sampleItem "gamma" (some "b")]
    (sampleItem "" (some "b")) "Thought content cannot be empty"
    (by decide!) (by decide!)

/-! ## `extractTasks` is idempotent (C8) -/

theorem taskFromMatch_id (now : String) (a b : String) (m : TaskMatch) :
    (taskFromMatch now a b m).id =
      "task-" ++ a ++ "-" ++ b ++ "-" ++ toString m.index := rfl

theorem taskStep_snd (now : String) (acc : List TaskItem × List TaskItem)
    (tr : String × String × TaskMatch) :
    (taskStep now acc tr).2 = acc.2 ++ [taskFromMatch now tr.1 tr.2.1 tr.2.2] := rfl

theorem taskStep_fst_mono (now : String) (acc : List TaskItem × List TaskItem)
    (tr : String × String × TaskMatch) (x : String)
    (hx : x ∈ acc.1.map (fun t => t.id)) :
    x ∈ (taskStep now acc tr).1.map (fun t => t.id) := by
  unfold taskStep
  dsimp only
  split
  · exact hx
  · rw [List.map_append]; exact List.mem_append_left _ hx

theorem taskStep_fst_head (now : String) (acc : List TaskItem × List TaskItem)
    (tr : String × String × TaskMatch) :
    (taskFromMatch now tr.1 tr.2.1 tr.2.2).id ∈
      (taskStep now acc tr).1.map (fun t => t.id) := by
  unfold taskStep
  dsimp only
  split
  · rename_i hany
    rw [List.any_eq_true] at hany
    obtain ⟨t, ht, hid⟩ := hany
    rw [beq_iff_eq] at hid
    exact hid ▸ List.mem_map_of_mem (fun t => t.id) ht
  · rw [List.map_append]
    exact List.mem_append_right _ (by simp)

theorem taskStep_fst_noop (now : String) (acc : List TaskItem × List TaskItem)
    (tr : String × String × TaskMatch)
    (hin : (taskFromMatch now tr.1 tr.2.1 tr.2.2).id ∈
      acc.1.map (fun t => t.id)) :
    (taskStep now acc tr).1 = acc.1 := by
  rw [List.mem_map] at hin
  obtain ⟨t, ht, hid⟩ := hin
  unfold taskStep
  dsimp only
  split
  · rfl
  · rename_i hany
    exfalso
    apply hany
    rw [List.any_eq_true]
    exact ⟨t, ht, beq_iff_eq.mpr hid⟩

/-- The found list accumulates every match, in order. -/
theorem taskFold_found (now : String)
    (trs : List (String × String × TaskMatch)) :
    ∀ (p : List TaskItem × List TaskItem),
      (trs.foldl (taskStep now) p).2 =
        p.2 ++ trs.map (fun tr => taskFromMatch now tr.1 tr.2.1 tr.2.2) := by
  induction trs with
  | nil => intro p; simp
  | cons tr rest ih =>
    intro p
    rw [List.foldl_cons, List.map_cons, ih, taskStep_snd]
    simp

/-- The store only grows: a present id stays present. -/
theorem taskFold_id_mono (now : String)
    (trs : List (String × String × TaskMatch)) :
    ∀ (p : List TaskItem × List TaskItem) (x : String),
      x ∈ p.1.map (fun t => t.id) →
      x ∈ ((trs.foldl (taskStep now) p).1).map (fun t => t.id) := by
  induction trs with
  | nil => intro p x hx; exact hx
  | cons tr rest ih =>
    intro p x hx
    rw [List.foldl_cons]
    exact ih _ x (taskStep_fst_mono now p tr x hx)

/-- After a run, every match's task id is in the store. -/
theorem taskFold_ids_present (now : String)
    (trs : List (String × String × TaskMatch)) :
    ∀ (p : List TaskItem × List TaskItem) (tr : String × String × TaskMatch),
      tr ∈ trs →
      (taskFromMatch now tr.1 tr.2.1 tr.2.2).id ∈
        ((trs.foldl (taskStep now) p).1).map (fun t => t.id) := by
  induction trs with
  | nil => intro p tr h; cases h
  | cons hd rest ih =>
    intro p tr h
    rw [List.foldl_cons]
    rcases List.mem_cons.mp h with rfl | hrest
    · exact taskFold_id_mono now rest _ _ (taskStep_fst_head now p tr)
    · exact ih _ tr hrest

/-- When every match's id is already stored, a run adds nothing. -/
theorem taskFold_noop (now : String)
    (trs : List (String × String × TaskMatch)) :
    ∀ (p : List TaskItem × List TaskItem),
      (∀ tr ∈ trs, (taskFromMatch now tr.1 tr.2.1 tr.2.2).id ∈
        p.1.map (fun t => t.id)) →
      (trs.foldl (taskStep now) p).1 = p.1 := by
  induction trs with
  | nil => intro p _; rfl
  | cons hd rest ih =>
    intro p hall
    rw [List.foldl_cons]
    have hstep : (taskStep now p hd).1 = p.1 :=
      taskStep_fst_noop now p hd (hall hd (List.mem_cons_self hd rest))
    rw [ih (taskStep now p hd)
      (fun tr htr => hstep ▸ hall tr (List.mem_cons_of_mem _ htr)), hstep]

theorem extractTasks_branches (matcher : String → List TaskMatch)
    (now : String) (bid : Option String) (s : ManagerState) :
    (extractTasks matcher now bid s).1.branches = s.branches := rfl

theorem extractTasks_snd (matcher : String → List TaskMatch)
    (now : String) (bid : Option String) (s : ManagerState) :
    (extractTasks matcher now bid s).2 =
      ((matchTriples matcher (taskScope bid s)).foldl (taskStep now)
        (s.tasks, [])).2 := rfl

theorem extractTasks_fst_tasks (matcher : String → List TaskMatch)
    (now : String) (bid : Option String) (s : ManagerState) :
    (extractTasks matcher now bid s).1.tasks =
      ((matchTriples matcher (taskScope bid s)).foldl (taskStep now)
        (s.tasks, [])).1 := rfl

theorem taskScope_congr (bid : Option String) {s1 s2 : ManagerState}
    (h : s1.branches = s2.branches) : taskScope bid s1 = taskScope bid s2 := by
  unfold taskScope branchGet
  rw [h]

/-- C8: running `extractTasks` twice over unchanged thought contents is
idempotent — the second run returns tasks with exactly the same
deterministic ids (derived from branch id, thought id and match offset) as
the first, and adds no entry to the persistent task store.  Quantified over
an arbitrary pure regex scan `matcher` and arbitrary clock readings for the
two runs. -/
theorem extractTasks_idempotent (matcher : String → List TaskMatch)
    (now1 now2 : String) (bid : Option String) (s : ManagerState) :
    ((extractTasks matcher now2 bid (extractTasks matcher now1 bid s).1).2).map
        (fun t => t.id) =
      ((extractTasks matcher now1 bid s).2).map (fun t => t.id) ∧
    (extractTasks matcher now2 bid (extractTasks matcher now1 bid s).1).1.tasks =
      (extractTasks matcher now1 bid s).1.tasks := by
  have hscope : taskScope bid (extractTasks matcher now1 bid s).1 =
      taskScope bid s :=
    taskScope_congr bid (extractTasks_branches matcher now1 bid s)
  constructor
  · rw [extractTasks_snd matcher now2, extractTasks_snd matcher now1,
        extractTasks_fst_tasks matcher now1, hscope,
        taskFold_found, taskFold_found]
    simp only [List.nil_append, List.map_map]
    rfl
  · rw [extractTasks_fst_tasks matcher now2, extractTasks_fst_tasks matcher now1,
        hscope]
    apply taskFold_noop
    intro tr htr
    have hsame : (taskFromMatch now2 tr.1 tr.2.1 tr.2.2).id =
        (taskFromMatch now1 tr.1 tr.2.1 tr.2.2).id := rfl
    rw [hsame]
    exact taskFold_ids_present now1 _ (s.tasks, []) tr htr

/-- Witness for C10 at a concrete store: branch `a` with one thought. -/
theorem mergeBranches_self_duplicates_then_deletes_witness :
    (mergeBranches 0 "a" "a" c2State).2 = Except.ok (updateBranchMetrics 0
      { sampleBranch "a" [sampleThought "thought-1" "keep me" "a"] with
          thoughts := [sampleThought "thought-1" "keep me" "a"] ++
            [sampleThought "thought-1" "keep me" "a"],
          insights := [] ++ [],
          crossRefs := [] ++ [] }) ∧
    getBranch (mergeBranches 0 "a" "a" c2State).1 "a" = none :=
  mergeBranches_self_duplicates_then_deletes 0 c2State "a"
    (sampleBranch "a" [sampleThought "thought-1" "keep me" "a"])
    (by decide!) (by decide!)

/-! ## map lemmas -/

theorem mapGet_nil {α : Type} (k : String) : mapGet ([] : List (String × α)) k = none := rfl

theorem find?_key_cons {α : Type} (q : String × α) (m : List (String × α))
    (k : String) :
    List.find? (fun p => p.1 == k) (q :: m) =
      if q.1 == k then some q else List.find? (fun p => p.1 == k) m := by
  rcases hq : (q.1 == k) with _ | _ <;> simp [List.find?, hq]

theorem mapGet_cons {α : Type} (q : String × α) (m : List (String × α))
    (k : String) :
    mapGet (q :: m) k = if q.1 == k then some q.2 else mapGet m k := by
  unfold mapGet
  rw [find?_key_cons]
  rcases hq : (q.1 == k) with _ | _ <;> simp [hq]

theorem mapSet_cons_eq {α : Type} (q : String × α) (m : List (String × α))
    (k : String) (v : α) (hq : (q.1 == k) = true) :
    mapSet (q :: m) k v =
      (k, v) :: m.map (fun p => if p.1 == k then (k, v) else p) := by
  unfold mapSet
  rw [find?_key_cons, if_pos hq,
    if_pos (show (some q).isSome = true from rfl), List.map_cons,
    if_pos hq]

theorem mapSet_cons_ne {α : Type} (q : String × α) (m : List (String × α))
    (k : String) (v : α) (hq : (q.1 == k) = false) :
    mapSet (q :: m) k v = q :: mapSet m k v := by
  have hfind : List.find? (fun p => p.1 == k) (q :: m) =
      List.find? (fun p => p.1 == k) m := by
    rw [find?_key_cons, if_neg (by simp [hq])]
  unfold mapSet
  rw [hfind]
  rcases hf : (List.find? (fun p => p.1 == k) m).isSome with _ | _
  · rw [hf, if_neg Bool.false_ne_true, if_neg Bool.false_ne_true,
      List.cons_append]
  · rw [hf, if_pos rfl, if_pos rfl, List.map_cons,
      if_neg (show ¬ ((q.1 == k) = true) from by simp [hq])]

theorem mapGet_map_overwrite {α : Type} (m : List (String × α))
    (k k' : String) (v : α) (hne : k' ≠ k) :
    mapGet (m.map (fun p => if p.1 == k then (k, v) else p)) k' = mapGet m k' := by
  induction m with
  | nil => rfl
  | cons q m ih =>
    rw [List.map_cons]
    rcases hq : (q.1 == k) with _ | _
    · rw [if_neg Bool.false_ne_true, mapGet_cons, mapGet_cons]
      rcases hq' : (q.1 == k') with _ | _
      · rw [if_neg Bool.false_ne_true, if_neg Bool.false_ne_true]
        exact ih
      · rw [if_pos rfl, if_pos rfl]
    · rw [if_pos rfl, mapGet_cons, mapGet_cons]
      have hk1 : ((k, v).1 == k') = false :=
        beq_eq_false_iff_ne.mpr (fun h => hne h.symm)
      have hq' : (q.1 == k') = false := by
        rw [beq_iff_eq] at hq
        exact beq_eq_false_iff_ne.mpr (hq ▸ fun h => hne h.symm)
      rw [hk1, hq', if_neg Bool.false_ne_true, if_neg Bool.false_ne_true]
      exact ih

theorem mapGet_mapSet_self {α : Type} (m : List (String × α)) (k : String) (v : α) :
    mapGet (mapSet m k v) k = some v := by
  induction m with
  | nil =>
    show mapGet ([] ++ [(k, v)]) k = some v
    rw [List.nil_append, mapGet_cons, if_pos (by simp)]
  | cons q m ih =>
    rcases hq : (q.1 == k) with _ | _
    · rw [mapSet_cons_ne q m k v hq, mapGet_cons, if_neg (by simp [hq])]
      exact ih
    · rw [mapSet_cons_eq q m k v hq, mapGet_cons, if_pos (by simp)]

theorem mapGet_mapSet_ne {α : Type} (m : List (String × α)) (k k' : String)
    (v : α) (hne : k' ≠ k) : mapGet (mapSet m k v) k' = mapGet m k' := by
  induction m with
  | nil =>
    show mapGet ([] ++ [(k, v)]) k' = mapGet [] k'
    rw [List.nil_append, mapGet_cons,
      if_neg (by simp only [beq_iff_eq]; exact fun h => hne h.symm)]
  | cons q m ih =>
    rcases hq : (q.1 == k) with _ | _
    · rw [mapSet_cons_ne q m k v hq, mapGet_cons, mapGet_cons]
      rcases hq' : (q.1 == k') with _ | _
      · rw [if_neg Bool.false_ne_true, if_neg Bool.false_ne_true]
        exact ih
      · rw [if_pos rfl, if_pos rfl]
    · rw [mapSet_cons_eq q m k v hq, mapGet_cons, mapGet_cons]
      have hk1 : ((k, v).1 == k') = false :=
        beq_eq_false_iff_ne.mpr (fun h => hne h.symm)
      have hq' : (q.1 == k') = false := by
        rw [beq_iff_eq] at hq
        exact beq_eq_false_iff_ne.mpr (hq ▸ fun h => hne h.symm)
      rw [hk1, hq', if_neg Bool.false_ne_true, if_neg Bool.false_ne_true]
      exact mapGet_map_overwrite m k k' v hne

/-! ## decimal repr injectivity -/

theorem decodeF_cons (c : Char) (ds : List Char) (acc : Nat) :
    decodeF (c :: ds) acc = decodeF ds (acc * 10 + (c.toNat - 48)) := rfl

theorem digitChar_decode : ∀ d, d < 10 → (Nat.digitChar d).toNat - 48 = d := by decide

theorem digitChar_isDigit : ∀ d, d < 10 → (Nat.digitChar d).isDigit = true := by decide

theorem decodeF_toDigitsCore :
    ∀ (fuel n : Nat), n < 10 ^ fuel → ∀ (ds : List Char),
      decodeF (Nat.toDigitsCore 10 fuel n ds) 0 = decodeF ds n := by
  intro fuel
  induction fuel with
  | zero =>
    intro n hn ds
    rw [pow_zero] at hn
    have : n = 0 := by omega
    subst this
    rfl
  | succ fuel ih =>
    intro n hn ds
    simp only [Nat.toDigitsCore]
    split
    · rename_i h0
      have hn10 : n < 10 := by omega
      rw [decodeF_cons, digitChar_decode _ (Nat.mod_lt n (by norm_num))]
      rw [Nat.zero_mul, Nat.zero_add, Nat.mod_eq_of_lt hn10]
    · rename_i h0
      have hlt : n / 10 < 10 ^ fuel := by
        rw [Nat.div_lt_iff_lt_mul (by norm_num : 0 < 10)]
        rw [pow_succ] at hn
        exact hn
      rw [ih (n / 10) hlt]
      rw [decodeF_cons, digitChar_decode _ (Nat.mod_lt n (by norm_num))]
      have hdm : n / 10 * 10 + n % 10 = n := by omega
      rw [hdm]

theorem decodeF_repr (n : Nat) : decodeF (Nat.repr n).data 0 = n := by
  show decodeF (Nat.toDigitsCore 10 (n + 1) n []) 0 = n
  rw [decodeF_toDigitsCore (n + 1) n
    (lt_of_lt_of_le (Nat.lt_pow_self (by norm_num) n)
      (Nat.pow_le_pow_right (by norm_num) (Nat.le_succ n))) []]
  rfl

theorem natRepr_inj (m n : Nat) (h : Nat.repr m = Nat.repr n) : m = n := by
  have := congrArg (fun s => decodeF s.data 0) h
  simpa [decodeF_repr] using this

theorem toDigitsCore_all_digits :
    ∀ (fuel n : Nat) (ds : List Char), (∀ c ∈ ds, c.isDigit = true) →
      ∀ c ∈ Nat.toDigitsCore 10 fuel n ds, c.isDigit = true := by
  intro fuel
  induction fuel with
  | zero => intro n ds hds; simpa [Nat.toDigitsCore] using hds
  | succ fuel ih =>
    intro n ds hds
    simp only [Nat.toDigitsCore]
    split
    · intro c hc
      rcases List.mem_cons.mp hc with rfl | hmem
      · exact digitChar_isDigit _ (Nat.mod_lt n (by norm_num))
      · exact hds c hmem
    · refine ih (n / 10) _ ?_
      intro c hc
      rcases List.mem_cons.mp hc with rfl | hmem
      · exact digitChar_isDigit _ (Nat.mod_lt n (by norm_num))
      · exact hds c hmem

theorem toDigitsCore_ne_nil :
    ∀ (fuel n : Nat) (ds : List Char), 0 < fuel ∨ ds ≠ [] →
      Nat.toDigitsCore 10 fuel n ds ≠ [] := by
  intro fuel
  induction fuel with
  | zero =>
    intro n ds hds
    rcases hds with h | h
    · omega
    · simpa [Nat.toDigitsCore] using h
  | succ fuel ih =>
    intro n ds _
    simp only [Nat.toDigitsCore]
    split
    · exact List.cons_ne_nil _ _
    · exact ih (n / 10) _ (Or.inr (List.cons_ne_nil _ _))

theorem repr_head_digit (n : Nat) :
    ∃ c cs, (Nat.repr n).data = c :: cs ∧ c.isDigit = true := by
  have hne : Nat.toDigitsCore 10 (n + 1) n [] ≠ [] :=
    toDigitsCore_ne_nil (n + 1) n [] (Or.inl (Nat.succ_pos n))
  obtain ⟨c, cs, hcons⟩ := List.exists_cons_of_ne_nil hne
  refine ⟨c, cs, hcons, ?_⟩
  exact toDigitsCore_all_digits (n + 1) n [] (by simp) c
    (hcons ▸ List.mem_cons_self c cs)

theorem intToString_inj (i j : Int) (h : toString i = toString j) : i = j := by
  cases i with
  | ofNat m =>
    cases j with
    | ofNat n =>
      exact congrArg Int.ofNat (natRepr_inj m n h)
    | negSucc n =>
      exfalso
      obtain ⟨c, cs, hcons, hdig⟩ := repr_head_digit m
      have hdata : (Nat.repr m).data = '-' :: (Nat.repr (n + 1)).data := by
        have h2 := congrArg String.data h
        rw [show toString (Int.ofNat m) = Nat.repr m from rfl,
          show toString (Int.negSucc n) = "-" ++ Nat.repr (n + 1) from rfl,
          String.data_append] at h2
        exact h2
      rw [hcons] at hdata
      have : c = '-' := (List.cons.injEq _ _ _ _).mp hdata |>.1
      rw [this] at hdig
      exact absurd hdig (by decide)
  | negSucc m =>
    cases j with
    | ofNat n =>
      exfalso
      obtain ⟨c, cs, hcons, hdig⟩ := repr_head_digit n
      have hdata : (Nat.repr n).data = '-' :: (Nat.repr (m + 1)).data := by
        have h2 := congrArg String.data h.symm
        rw [show toString (Int.ofNat n) = Nat.repr n from rfl,
          show toString (Int.negSucc m) = "-" ++ Nat.repr (m + 1) from rfl,
          String.data_append] at h2
        exact h2
      rw [hcons] at hdata
      have : c = '-' := (List.cons.injEq _ _ _ _).mp hdata |>.1
      rw [this] at hdig
      exact absurd hdig (by decide)
    | negSucc n =>
      have hdata := congrArg String.data h
      rw [show toString (Int.negSucc m) = "-" ++ Nat.repr (m + 1) from rfl,
        show toString (Int.negSucc n) = "-" ++ Nat.repr (n + 1) from rfl,
        String.data_append, String.data_append] at hdata
      have : (Nat.repr (m + 1)).data = (Nat.repr (n + 1)).data :=
        List.append_cancel_left hdata
      have hmn := natRepr_inj (m + 1) (n + 1) (String.ext this)
      have hmn' : m = n := by omega
      rw [hmn']

/-! ## 32-bit wrap distinguishes consecutive values -/

theorem toInt32_ne_succ (y : Int) : toInt32 y ≠ toInt32 (y + 1) := by
  unfold toInt32
  have e1 : (2 : Int) ^ 31 = 2147483648 := by norm_num
  have e2 : (2 : Int) ^ 32 = 4294967296 := by norm_num
  rw [e1, e2]
  omega

theorem hashStep_ne (h : Int) : hashStep h 98 ≠ hashStep h 99 := by
  unfold hashStep
  have e1 : toInt32 (h * 32) - h + 98 + 1 = toInt32 (h * 32) - h + 99 := by ring
  intro hc
  exact toInt32_ne_succ (toInt32 (h * 32) - h + 98) (by rw [e1]; exact_mod_cast hc)

/-! ## The C7 texts: equal after truncation, different hashes -/

theorem jsSplitWsAux_true_rep (c : Char) (hc : c.isWhitespace = false) :
    ∀ n, jsSplitWsAux true ((List.replicate n ['a', ' ']).flatten ++ [c]) [] =
      List.replicate n "a" ++ [String.mk [c]] := by
  intro n
  induction n with
  | zero => simp [jsSplitWsAux, hc]
  | succ n ih =>
    rw [List.replicate_succ, List.flatten_cons]
    show jsSplitWsAux true ('a' :: ' ' :: ((List.replicate n ['a', ' ']).flatten ++ [c])) [] = _
    rw [show jsSplitWsAux true ('a' :: ' ' :: ((List.replicate n ['a', ' ']).flatten ++ [c])) []
        = "a" :: jsSplitWsAux true ((List.replicate n ['a', ' ']).flatten ++ [c]) [] by
      simp [jsSplitWsAux]]
    rw [ih, List.replicate_succ, List.cons_append]

theorem jsSplitWs_rep (c : Char) (hc : c.isWhitespace = false) (n : Nat) :
    jsSplitWs (String.mk ((List.replicate (n + 1) ['a', ' ']).flatten ++ [c])) =
      List.replicate (n + 1) "a" ++ [String.mk [c]] := by
  unfold jsSplitWs
  rw [show (String.mk ((List.replicate (n + 1) ['a', ' ']).flatten ++ [c])).toList
      = (List.replicate (n + 1) ['a', ' ']).flatten ++ [c] from rfl]
  rw [List.replicate_succ, List.flatten_cons]
  show jsSplitWsAux false ('a' :: ' ' :: ((List.replicate n ['a', ' ']).flatten ++ [c])) [] = _
  rw [show jsSplitWsAux false ('a' :: ' ' :: ((List.replicate n ['a', ' ']).flatten ++ [c])) []
      = "a" :: jsSplitWsAux true ((List.replicate n ['a', ' ']).flatten ++ [c]) [] by
    simp [jsSplitWsAux]]
  rw [jsSplitWsAux_true_rep c hc, List.replicate_succ, List.cons_append]

theorem truncate_eq_c7 : truncateText t1C7 = truncateText t2C7 := by
  unfold truncateText t1C7 t2C7 wC7
  rw [jsSplitWs_rep 'b' (by decide) 512, jsSplitWs_rep 'c' (by decide) 512]
  simp only [List.length_append, List.length_replicate, List.length_cons,
    List.length_nil]
  rw [if_pos (by norm_num), if_pos (by norm_num)]
  have h512 : (512 : Nat) ≤ (List.replicate 513 ("a" : String)).length := by
    rw [List.length_replicate]
    omega
  rw [List.take_append_of_le_length h512,
    List.take_append_of_le_length h512]

theorem t1_ne_t2_c7 : t1C7 ≠ t2C7 := by
  intro h
  have h2 := congrArg String.data h
  have h3 : (['b'] : List Char) = ['c'] :=
    List.append_cancel_left (h2 : wC7 ++ ['b'] = wC7 ++ ['c'])
  simp at h3

theorem hashContent_append_one (l : List Char) (c : Char) :
    hashContent (String.mk (l ++ [c])) =
      toString (hashStep (l.foldl (fun h ch => hashStep h ch.toNat) 0) c.toNat) := by
  unfold hashContent
  rw [show (String.mk (l ++ [c])).toList = l ++ [c] from rfl]
  rw [List.foldl_append]
  rfl

theorem hash_ne_c7 : hashContent t1C7 ≠ hashContent t2C7 := by
  intro h
  unfold t1C7 t2C7 at h
  rw [hashContent_append_one wC7 'b', hashContent_append_one wC7 'c'] at h
  have hinj := intToString_inj _ _ h
  have hb : ('b').toNat = 98 := rfl
  have hc : ('c').toNat = 99 := rfl
  rw [hb, hc] at hinj
  exact hashStep_ne _ hinj

/-! ## unfolding lemmas for `embedText` -/

theorem embedText_lru_hit (gateway : String → List ℚ) (text : String)
    (s : ManagerState) (v : List ℚ)
    (h1 : mapGet s.embeddingLRU (hashContent text) = some v) :
    embedText gateway text s = (s, v) := by
  simp only [embedText, h1]

theorem embedText_cache_hit (gateway : String → List ℚ) (text : String)
    (s : ManagerState) (v : List ℚ)
    (h1 : mapGet s.embeddingLRU (hashContent text) = none)
    (h2 : mapGet s.embeddingCache (hashContent text) = some v) :
    embedText gateway text s =
      ({ s with embeddingLRU := mapSet s.embeddingLRU (hashContent text) v }, v) := by
  simp only [embedText, h1, h2]

theorem embedText_miss (gateway : String → List ℚ) (text : String)
    (s : ManagerState)
    (h1 : mapGet s.embeddingLRU (hashContent text) = none)
    (h2 : mapGet s.embeddingCache (hashContent text) = none) :
    embedText gateway text s =
      ({ s with
          embeddingLRU := mapSet s.embeddingLRU (hashContent text)
            (gateway (truncateText text)),
          embeddingCache := mapSet s.embeddingCache (hashContent text)
            (gateway (truncateText text)),
          gatewayCalls := s.gatewayCalls + 1 }, gateway (truncateText text)) := by
  simp only [embedText, h1, h2]

/-! ## the two theorems -/

theorem embedText_two_misses (gateway : String → List ℚ) (t t' : String)
    (s : ManagerState)
    (h1 : mapGet s.embeddingLRU (hashContent t) = none)
    (h2 : mapGet s.embeddingCache (hashContent t) = none)
    (hne : hashContent t' ≠ hashContent t)
    (h3 : mapGet s.embeddingLRU (hashContent t') = none)
    (h4 : mapGet s.embeddingCache (hashContent t') = none) :
    (embedText gateway t' (embedText gateway t s).1).1.gatewayCalls =
      s.gatewayCalls + 2 := by
  have h1' : mapGet (embedText gateway t s).1.embeddingLRU (hashContent t') =
      none := by
    rw [embedText_miss gateway t s h1 h2]
    show mapGet (mapSet s.embeddingLRU (hashContent t)
      (gateway (truncateText t))) (hashContent t') = none
    rw [mapGet_mapSet_ne _ _ _ _ hne]
    exact h3
  have h2' : mapGet (embedText gateway t s).1.embeddingCache (hashContent t') =
      none := by
    rw [embedText_miss gateway t s h1 h2]
    show mapGet (mapSet s.embeddingCache (hashContent t)
      (gateway (truncateText t))) (hashContent t') = none
    rw [mapGet_mapSet_ne _ _ _ _ hne]
    exact h4
  rw [embedText_miss gateway t' _ h1' h2']
  show (embedText gateway t s).1.gatewayCalls + 1 = s.gatewayCalls + 2
  rw [embedText_miss gateway t s h1 h2]

/-- C7 (counterexample): the embedding cache is keyed by the hash of the
full text, computed before truncation.  The two distinct texts `t1C7` and
`t2C7` are identical after canonical truncation (both truncate to the same
512 words), yet embedding one after the other triggers two Gateway calls:
the second lookup misses because the untruncated contents hash to
different keys. -/
theorem embedText_truncated_equal_two_gateway_calls :
    t1C7 ≠ t2C7 ∧ truncateText t1C7 = truncateText t2C7 ∧
    (embedText (fun _ => [1]) t2C7
      (embedText (fun _ => [1]) t1C7 emptyState).1).1.gatewayCalls = 2 := by
  refine ⟨t1_ne_t2_c7, truncate_eq_c7, ?_⟩
  rw [embedText_two_misses (fun _ => [1]) t1C7 t2C7 emptyState rfl rfl
    (Ne.symm hash_ne_c7) rfl rfl]
  rfl

/-- C7 (amended): the cache is content-addressed at the granularity of the
full, untruncated text.  A second `embedText` call with the identical text
adds no Gateway call and returns the same vector, and an `embedText` call
never alters the cached embedding stored under any other content key (in
either the persistent cache or the LRU front). -/
theorem embedText_content_addressed (gateway : String → List ℚ)
    (text : String) (s : ManagerState) :
    (embedText gateway text (embedText gateway text s).1).1.gatewayCalls =
      (embedText gateway text s).1.gatewayCalls ∧
    (embedText gateway text (embedText gateway text s).1).2 =
      (embedText gateway text s).2 ∧
    ∀ k, k ≠ hashContent text →
      mapGet (embedText gateway text s).1.embeddingCache k =
        mapGet s.embeddingCache k ∧
      mapGet (embedText gateway text s).1.embeddingLRU k =
        mapGet s.embeddingLRU k := by
  rcases hlru : mapGet s.embeddingLRU (hashContent text) with _ | v
  · rcases hcache : mapGet s.embeddingCache (hashContent text) with _ | v
    · rw [embedText_miss gateway text s hlru hcache]
      have hhit : embedText gateway text
          ({ s with
            embeddingLRU := mapSet s.embeddingLRU (hashContent text)
              (gateway (truncateText text)),
            embeddingCache := mapSet s.embeddingCache (hashContent text)
              (gateway (truncateText text)),
            gatewayCalls := s.gatewayCalls + 1 } : ManagerState) =
          (_, gateway (truncateText text)) :=
        embedText_lru_hit gateway text _ _
          (mapGet_mapSet_self s.embeddingLRU (hashContent text) _)
      rw [hhit]
      refine ⟨rfl, rfl, ?_⟩
      intro k hk
      exact ⟨mapGet_mapSet_ne _ _ _ _ hk, mapGet_mapSet_ne _ _ _ _ hk⟩
    · rw [embedText_cache_hit gateway text s v hlru hcache]
      have hhit : embedText gateway text
          ({ s with
            embeddingLRU := mapSet s.embeddingLRU (hashContent text) v } :
            ManagerState) = (_, v) :=
        embedText_lru_hit gateway text _ _
          (mapGet_mapSet_self s.embeddingLRU (hashContent text) v)
      rw [hhit]
      refine ⟨rfl, rfl, ?_⟩
      intro k hk
      exact ⟨rfl, mapGet_mapSet_ne _ _ _ _ hk⟩
  · rw [embedText_lru_hit gateway text s v hlru,
      embedText_lru_hit gateway text s v hlru]
    exact ⟨rfl, rfl, fun k hk => ⟨rfl, rfl⟩⟩

/-- Witness for the amended C7 theorem at a concrete input: embedding the
one-word text `a` into the empty store leaves the (absent) cache entries of
the unrelated key `zz` untouched. -/
theorem embedText_content_addressed_witness :
    ("zz" ≠ hashContent "a") ∧
    (mapGet (embedText (fun _ => [1]) "a" emptyState).1.embeddingCache "zz" =
        mapGet emptyState.embeddingCache "zz" ∧
      mapGet (embedText (fun _ => [1]) "a" emptyState).1.embeddingLRU "zz" =
        mapGet emptyState.embeddingLRU "zz") :=
  ⟨by decide,
    (embedText_content_addressed (fun _ => [1]) "a" emptyState).2.2 "zz"
      (by decide)⟩


/-! ## The scoring formula (C5) -/

theorem scoreThought_formula (now : ℚ) (all : List ThoughtData)
    (t : ThoughtData) :
    (scoreThought now all t).score = some (specThoughtScore now all t) := by
  rcases htc : t.crossRefs with _ | crs
  · simp only [scoreThought, specThoughtScore, specDiversityBonus,
      specRecencyBonus, recencyBonus, diversityBonus, htc, Option.getD_none]
    norm_num [firstDedup]
  · simp only [scoreThought, specThoughtScore, specDiversityBonus,
      specRecencyBonus, recencyBonus, diversityBonus, htc, Option.getD_some]

theorem find?_branchId_map (g : ThoughtData → ThoughtData)
    (hid : ∀ t, (g t).id = t.id) (hbr : ∀ t, (g t).branchId = t.branchId)
    (l : List ThoughtData) (tid : String) :
    ((l.map g).find? (fun u => u.id == tid)).map (fun u => u.branchId) =
      (l.find? (fun u => u.id == tid)).map (fun u => u.branchId) := by
  induction l with
  | nil => rfl
  | cons a l ih =>
    rw [List.map_cons]
    rcases ha : (a.id == tid) with _ | _
    · rw [List.find?_cons_of_neg, List.find?_cons_of_neg]
      · exact ih
      · simp [ha]
      · simp [hid, ha]
    · rw [List.find?_cons_of_pos, List.find?_cons_of_pos]
      · simp [hbr]
      · simp [ha]
      · simp [hid, ha]

theorem diversityBonus_map (crs : List CrossRefEntry)
    (l : List ThoughtData) (g : ThoughtData → ThoughtData)
    (hid : ∀ t, (g t).id = t.id) (hbr : ∀ t, (g t).branchId = t.branchId) :
    diversityBonus crs (l.map g) = diversityBonus crs l := by
  unfold diversityBonus
  have hcongr : crs.filterMap (fun cr =>
      ((l.map g).find? (fun t => t.id == cr.toThoughtId)).map
        (fun t => t.branchId)) =
      crs.filterMap (fun cr =>
        (l.find? (fun t => t.id == cr.toThoughtId)).map
          (fun t => t.branchId)) := by
    induction crs with
    | nil => rfl
    | cons cr crs ih =>
      rw [List.filterMap_cons, List.filterMap_cons,
        find?_branchId_map g hid hbr l cr.toThoughtId, ih]
  rw [hcongr]

theorem specDiversityBonus_map (crs : List CrossRefEntry)
    (l : List ThoughtData) (g : ThoughtData → ThoughtData)
    (hid : ∀ t, (g t).id = t.id) (hbr : ∀ t, (g t).branchId = t.branchId) :
    specDiversityBonus crs (l.map g) = specDiversityBonus crs l := by
  have h1 : specDiversityBonus crs (l.map g) = diversityBonus crs (l.map g) := rfl
  have h2 : specDiversityBonus crs l = diversityBonus crs l := rfl
  rw [h1, h2, diversityBonus_map crs l g hid hbr]

theorem specThoughtScore_map (now : ℚ) (l : List ThoughtData)
    (g : ThoughtData → ThoughtData)
    (hid : ∀ t, (g t).id = t.id) (hbr : ∀ t, (g t).branchId = t.branchId)
    (t : ThoughtData) :
    specThoughtScore now (l.map g) t = specThoughtScore now l t := by
  unfold specThoughtScore
  rw [specDiversityBonus_map _ l g hid hbr]

theorem flatMap_thoughts_map (g : ThoughtData → ThoughtData)
    (h : ThoughtBranch → ThoughtBranch)
    (hth : ∀ b, (h b).thoughts = b.thoughts.map g) :
    ∀ bs : List ThoughtBranch,
      (bs.map h).flatMap (fun b => b.thoughts) =
        (bs.flatMap (fun b => b.thoughts)).map g := by
  intro bs
  induction bs with
  | nil => rfl
  | cons _ bs ih =>
    rw [List.map_cons, List.flatMap_cons, List.flatMap_cons, hth,
      List.map_append, ih]

theorem allThoughtsOf_scoringPhase (now : ℚ) (bs : List ThoughtBranch) :
    allThoughtsOf (scoringPhase now bs) =
      (allThoughtsOf bs).map (scoreThought now (allThoughtsOf bs)) :=
  flatMap_thoughts_map (scoreThought now (allThoughtsOf bs)) _
    (fun _ => rfl) bs

theorem scoreThought_sets_only_score (now : ℚ) (all : List ThoughtData)
    (t : ThoughtData) :
    (scoreThought now all t).id = t.id ∧
    (scoreThought now all t).branchId = t.branchId ∧
    (scoreThought now all t).crossRefs = t.crossRefs ∧
    (scoreThought now all t).timestamp = t.timestamp ∧
    (scoreThought now all t).metadata = t.metadata := by
  exact ⟨rfl, rfl, rfl, rfl, rfl⟩

theorem scoringPhase_formula (now : ℚ) (bs : List ThoughtBranch) :
    ∀ b ∈ scoringPhase now bs,
      (∀ t ∈ b.thoughts,
        t.score = some (specThoughtScore now
          (allThoughtsOf (scoringPhase now bs)) t)) ∧
      b.score = some (specBranchScore b.thoughts) := by
  intro b hb
  rw [scoringPhase, List.mem_map] at hb
  obtain ⟨b0, hb0, hfb⟩ := hb
  constructor
  · intro t ht
    rw [← hfb] at ht
    have ht' : t ∈ b0.thoughts.map (scoreThought now (allThoughtsOf bs)) := ht
    rw [List.mem_map] at ht'
    obtain ⟨t0, ht0, hgt⟩ := ht'
    rw [← hgt]
    rw [show (scoreThought now (allThoughtsOf bs) t0).score =
        some (specThoughtScore now (allThoughtsOf bs) t0) from
      scoreThought_formula now (allThoughtsOf bs) t0]
    congr 1
    rw [allThoughtsOf_scoringPhase now bs,
      specThoughtScore_map now (allThoughtsOf bs)
        (scoreThought now (allThoughtsOf bs)) (fun t => rfl) (fun t => rfl)]
    rfl
  · rw [← hfb]
    rfl

/-- C5: after a full recompute pass, every thought carries the score
`0.5·Σ(direct cross-ref scores) + 0.25·Σ(multi-hop cross-ref scores) +
0.2·|crossRefs| + 0.1·recencyBonus + 0.1·diversityBonus + 0.2·confidence +
0.1·keyPointCount` — with the recency and diversity bonuses as the spec
defines them — and every branch carries the arithmetic mean of its
thoughts' scores (0 when empty). -/
theorem thought_and_branch_score_formula (emb : List (String × List ℚ))
    (now : ℚ) (bs : List ThoughtBranch) :
    ∀ b ∈ updateAllCrossRefsAndScores emb now bs,
      (∀ t ∈ b.thoughts,
        t.score = some (specThoughtScore now
          (allThoughtsOf (updateAllCrossRefsAndScores emb now bs)) t)) ∧
      b.score = some (specBranchScore b.thoughts) := by
  intro b hb
  exact scoringPhase_formula now (phase3 (phase2 emb (phase1 emb bs))) b hb

/-- Witness for C5 at a concrete store: one branch with one thought, no
embeddings; the pass scores the thought 3/10 and the branch likewise. -/
theorem thought_and_branch_score_formula_witness :
    c5OutBranch ∈ updateAllCrossRefsAndScores [] 0 [c5In] ∧
    c5OutThought ∈ c5OutBranch.thoughts ∧
    c5OutThought.score = some (specThoughtScore 0
      (allThoughtsOf (updateAllCrossRefsAndScores [] 0 [c5In])) c5OutThought) ∧
    c5OutBranch.score = some (specBranchScore c5OutBranch.thoughts) := by
  have hmem : c5OutBranch ∈ updateAllCrossRefsAndScores [] 0 [c5In] := by
    decide!
  have hmem2 : c5OutThought ∈ c5OutBranch.thoughts := by decide!
  have hthm := thought_and_branch_score_formula [] 0 [c5In] c5OutBranch hmem
  exact ⟨hmem, hmem2, hthm.1 c5OutThought hmem2, hthm.2⟩


/-! ## Top-k bounds of the cross-ref pass (C4) -/

theorem mem_insertDesc (x z : CrossRefEntry) :
    ∀ l, z ∈ insertDesc x l → z = x ∨ z ∈ l := by
  intro l
  induction l with
  | nil =>
    intro h
    simp only [insertDesc, List.mem_singleton] at h
    exact Or.inl h
  | cons y ys ih =>
    intro h
    simp only [insertDesc] at h
    by_cases hxy : x.score ≥ y.score
    · rw [if_pos hxy] at h
      rcases List.mem_cons.mp h with rfl | h2
      · exact Or.inl rfl
      · exact Or.inr h2
    · rw [if_neg hxy] at h
      rcases List.mem_cons.mp h with rfl | h2
      · exact Or.inr (List.mem_cons_self _ _)
      · rcases ih h2 with h3 | h3
        · exact Or.inl h3
        · exact Or.inr (List.mem_cons_of_mem _ h3)

theorem pairwise_insertDesc (x : CrossRefEntry) :
    ∀ l, List.Pairwise (fun a b : CrossRefEntry => b.score ≤ a.score) l →
      List.Pairwise (fun a b : CrossRefEntry => b.score ≤ a.score)
        (insertDesc x l) := by
  intro l
  induction l with
  | nil => intro _; simp [insertDesc]
  | cons y ys ih =>
    intro hp
    rw [List.pairwise_cons] at hp
    obtain ⟨hy, hys⟩ := hp
    simp only [insertDesc]
    by_cases hxy : x.score ≥ y.score
    · rw [if_pos hxy, List.pairwise_cons]
      refine ⟨?_, List.pairwise_cons.mpr ⟨hy, hys⟩⟩
      intro z hz
      rcases List.mem_cons.mp hz with rfl | h2
      · exact hxy
      · exact le_trans (hy z h2) hxy
    · rw [if_neg hxy, List.pairwise_cons]
      refine ⟨?_, ih hys⟩
      intro z hz
      rcases mem_insertDesc x z ys hz with rfl | h2
      · exact le_of_not_le hxy
      · exact hy z h2

theorem sortByScoreDesc_pairwise (l : List CrossRefEntry) :
    List.Pairwise (fun a b : CrossRefEntry => b.score ≤ a.score)
      (sortByScoreDesc l) := by
  unfold sortByScoreDesc
  induction l with
  | nil => simp
  | cons x xs ih =>
    rw [List.foldr_cons]
    exact pairwise_insertDesc x _ ih

theorem good6_take6 (t : ThoughtData) (l : List CrossRefEntry)
    (h : t.crossRefs = some ((sortByScoreDesc l).take 6)) : good6 t := by
  unfold good6
  rw [h, Option.getD_some]
  exact ⟨List.length_take_le _ _,
    (sortByScoreDesc_pairwise l).sublist (List.take_sublist _ _)⟩

/-! ## get and set at a position -/

theorem get?_lt {α : Type} (l : List α) (n : Nat) (a : α)
    (h : l.get? n = some a) : n < l.length := by
  rw [List.get?_eq_getElem?] at h
  exact (List.getElem?_eq_some.mp h).1

theorem get?_set_self {α : Type} (l : List α) (n : Nat) (a b : α)
    (h : l.get? n = some b) : (l.set n a).get? n = some a := by
  have := get?_lt l n b h
  simp [List.get?_eq_getElem?, List.getElem?_set_self, this]

theorem get?_set_ne {α : Type} (l : List α) (m n : Nat) (a : α)
    (h : m ≠ n) : (l.set m a).get? n = l.get? n := by
  simp [List.get?_eq_getElem?, List.getElem?_set_ne h]

theorem getThoughtAt_set_self (bs : List ThoughtBranch) (bi ti : Nat)
    (nT t0 : ThoughtData) (h : getThoughtAt bs bi ti = some t0) :
    getThoughtAt (setThoughtAt bs bi ti nT) bi ti = some nT := by
  unfold getThoughtAt at h ⊢
  unfold setThoughtAt
  rcases hb : bs.get? bi with _ | b
  · rw [hb] at h
    simp at h
  · rw [hb] at h
    have h2 : b.thoughts.get? ti = some t0 := h
    rw [get?_set_self bs bi _ b hb]
    show ((b.thoughts.set ti nT).get? ti) = some nT
    exact get?_set_self b.thoughts ti nT t0 h2

theorem getThoughtAt_set_other (bs : List ThoughtBranch) (bi ti bj tj : Nat)
    (nT : ThoughtData) (h : (bi, ti) ≠ (bj, tj)) :
    getThoughtAt (setThoughtAt bs bi ti nT) bj tj =
      getThoughtAt bs bj tj := by
  unfold getThoughtAt setThoughtAt
  rcases hb : bs.get? bi with _ | b
  · rfl
  · by_cases hbij : bi = bj
    · subst hbij
      have hti : ti ≠ tj := by
        intro hc; exact h (by rw [hc])
      rw [get?_set_self bs bi _ b hb, hb]
      show ((b.thoughts.set ti nT).get? tj) = b.thoughts.get? tj
      exact get?_set_ne b.thoughts ti tj nT hti
    · rw [get?_set_ne bs bi bj _ hbij]

/-! ## positions -/

theorem mem_positionsOf (bs : List ThoughtBranch) (q : Nat × Nat) :
    q ∈ positionsOf bs ↔ (getThoughtAt bs q.1 q.2).isSome := by
  unfold positionsOf getThoughtAt
  rw [List.mem_flatMap]
  constructor
  · rintro ⟨bi, hbi, hq⟩
    rcases hb : bs.get? bi with _ | b
    · rw [hb] at hq; cases hq
    · rw [hb] at hq
      rw [List.mem_map] at hq
      obtain ⟨ti, hti, rfl⟩ := hq
      rw [List.mem_range] at hti
      rw [hb]
      show (b.thoughts.get? ti).isSome = true
      rw [List.get?_eq_get hti]
      rfl
  · intro hs
    rcases hb : bs.get? q.1 with _ | b
    · rw [hb] at hs; simp at hs
    · rw [hb] at hs
      have hs2 : (b.thoughts.get? q.2).isSome = true := hs
      refine ⟨q.1, ?_, ?_⟩
      · rw [List.mem_range]
        exact get?_lt bs q.1 b hb
      · rw [hb, List.mem_map]
        refine ⟨q.2, ?_, ?_⟩
        · rw [List.mem_range]
          rcases hg : b.thoughts.get? q.2 with _ | t
          · rw [hg] at hs2; simp at hs2
          · exact get?_lt b.thoughts q.2 t hg
        · rfl

theorem mem_allThoughtsOf_pos (bs : List ThoughtBranch) (t : ThoughtData)
    (h : t ∈ allThoughtsOf bs) :
    ∃ bi ti, getThoughtAt bs bi ti = some t := by
  unfold allThoughtsOf at h
  rw [List.mem_flatMap] at h
  obtain ⟨b, hb, ht⟩ := h
  obtain ⟨bi, hbi⟩ := List.get?_of_mem hb
  obtain ⟨ti, hti⟩ := List.get?_of_mem ht
  refine ⟨bi, ti, ?_⟩
  unfold getThoughtAt
  rw [hbi]
  exact hti

theorem mem_allThoughtsOf_set (bs : List ThoughtBranch) (bi ti : Nat)
    (nT t : ThoughtData)
    (h : t ∈ allThoughtsOf (setThoughtAt bs bi ti nT)) :
    t = nT ∨ t ∈ allThoughtsOf bs := by
  unfold setThoughtAt at h
  rcases hb : bs.get? bi with _ | b
  · rw [hb] at h; exact Or.inr h
  · rw [hb] at h
    unfold allThoughtsOf at h ⊢
    rw [List.mem_flatMap] at h
    obtain ⟨b', hb', ht⟩ := h
    rcases List.mem_or_eq_of_mem_set hb' with hmem | rfl
    · exact Or.inr (List.mem_flatMap.mpr ⟨b', hmem, ht⟩)
    · have ht2 : t ∈ b.thoughts.set ti nT := ht
      rcases List.mem_or_eq_of_mem_set ht2 with hmem | rfl
      · exact Or.inr (List.mem_flatMap.mpr ⟨b, List.get?_mem hb, hmem⟩)
      · exact Or.inl rfl

/-! ## phase 3 caps at 6 and sorts -/

theorem phase3Step_self_good (bs : List ThoughtBranch) (q : Nat × Nat) :
    GoodAt (phase3Step bs q) q := by
  intro t ht
  unfold phase3Step at ht
  split at ht
  · rename_i hnone
    rw [hnone] at ht
    cases ht
  · rename_i t0 hsome
    split at ht
    · rename_i hnone
      rw [hsome] at ht
      obtain rfl := Option.some.inj ht
      unfold good6
      rw [hnone]
      simp
    · rename_i crs hcrs
      simp only [] at ht
      rw [getThoughtAt_set_self bs q.1 q.2 _ t0 hsome] at ht
      obtain rfl := Option.some.inj ht
      exact good6_take6 _ _ rfl

theorem phase3Step_other (bs : List ThoughtBranch) (p q : Nat × Nat)
    (h : q ≠ p) :
    getThoughtAt (phase3Step bs p) q.1 q.2 = getThoughtAt bs q.1 q.2 := by
  unfold phase3Step
  split
  · rfl
  · split
    · rfl
    · simp only []
      apply getThoughtAt_set_other
      intro hc
      apply h
      rw [Prod.mk.eta, Prod.mk.eta] at hc
      exact hc.symm

theorem phase3Step_isSome (bs : List ThoughtBranch) (p q : Nat × Nat) :
    (getThoughtAt (phase3Step bs p) q.1 q.2).isSome =
      (getThoughtAt bs q.1 q.2).isSome := by
  by_cases hqp : q = p
  · subst hqp
    unfold phase3Step
    split
    · rfl
    · rename_i t0 hsome
      split
      · rfl
      · rename_i crs hcrs
        simp only []
        rw [getThoughtAt_set_self bs q.1 q.2 _ t0 hsome, hsome]
        rfl
  · rw [phase3Step_other bs p q hqp]

theorem phase3Step_goodAt_preserved (bs : List ThoughtBranch)
    (p q : Nat × Nat) (h : GoodAt bs q) : GoodAt (phase3Step bs p) q := by
  by_cases hqp : q = p
  · subst hqp
    exact phase3Step_self_good bs q
  · intro t ht
    rw [phase3Step_other bs p q hqp] at ht
    exact h t ht

theorem phase3_fold_good (ps : List (Nat × Nat)) :
    ∀ (bs : List ThoughtBranch) (q : Nat × Nat), q ∈ ps →
      GoodAt (ps.foldl phase3Step bs) q := by
  induction ps with
  | nil => intro bs q h; cases h
  | cons p ps ih =>
    intro bs q hq
    rw [List.foldl_cons]
    rcases List.mem_cons.mp hq with rfl | h2
    · exact foldl_preserves (fun bs2 => GoodAt bs2 q) phase3Step
        (fun x a hx => phase3Step_goodAt_preserved x a q hx) ps
        (phase3Step bs q) (phase3Step_self_good bs q)
    · exact ih (phase3Step bs p) q h2

theorem phase3_fold_isSome (ps : List (Nat × Nat)) :
    ∀ (bs : List ThoughtBranch) (q : Nat × Nat),
      (getThoughtAt (ps.foldl phase3Step bs) q.1 q.2).isSome =
        (getThoughtAt bs q.1 q.2).isSome := by
  induction ps with
  | nil => intro bs q; rfl
  | cons p ps ih =>
    intro bs q
    rw [List.foldl_cons, ih (phase3Step bs p) q, phase3Step_isSome bs p q]

theorem phase3_good (bs : List ThoughtBranch) :
    ∀ t ∈ allThoughtsOf (phase3 bs), good6 t := by
  intro t ht
  obtain ⟨bi, ti, hq⟩ := mem_allThoughtsOf_pos (phase3 bs) t ht
  have hsome2 : (getThoughtAt bs bi ti).isSome = true := by
    rw [← phase3_fold_isSome (positionsOf bs) bs (bi, ti)]
    exact hq ▸ rfl
  have hpos : (bi, ti) ∈ positionsOf bs :=
    (mem_positionsOf bs (bi, ti)).mpr hsome2
  exact phase3_fold_good (positionsOf bs) bs (bi, ti) hpos t hq

/-! ## phases 1 and 2 cap the direct lists at 3 -/

theorem phase1Thought_id (emb : List (String × List ℚ))
    (all : List ThoughtData) (t : ThoughtData) :
    (phase1Thought emb all t).id = t.id := by
  unfold phase1Thought
  split
  · rfl
  · rfl

theorem phase1Thought_char (emb : List (String × List ℚ))
    (all : List ThoughtData) (t : ThoughtData) (embA : List ℚ)
    (hg : mapGet emb t.id = some embA) :
    phase1Thought emb all t =
      { t with
          crossRefs := some ((sortByScoreDesc (simsFor emb all t embA)).take 3) } := by
  unfold phase1Thought
  rw [hg]

theorem allThoughtsOf_phase1 (emb : List (String × List ℚ))
    (bs : List ThoughtBranch) :
    allThoughtsOf (phase1 emb bs) =
      (allThoughtsOf bs).map (phase1Thought emb (allThoughtsOf bs)) :=
  flatMap_thoughts_map (phase1Thought emb (allThoughtsOf bs)) _
    (fun _ => rfl) bs

theorem phase1_cap3 (emb : List (String × List ℚ)) (bs : List ThoughtBranch)
    (hemb : ∀ t ∈ allThoughtsOf bs, (mapGet emb t.id).isSome = true) :
    cap3 (phase1 emb bs) := by
  intro t ht
  rw [allThoughtsOf_phase1, List.mem_map] at ht
  obtain ⟨t0, ht0, rfl⟩ := ht
  obtain ⟨embA, hms⟩ := Option.isSome_iff_exists.mp (hemb t0 ht0)
  rw [phase1Thought_char emb _ t0 embA hms]
  exact List.length_take_le _ _

theorem cap3_set (bs : List ThoughtBranch) (bi ti : Nat) (nT : ThoughtData)
    (h : cap3 bs) (hn : (nT.crossRefs.getD []).length ≤ 3) :
    cap3 (setThoughtAt bs bi ti nT) := by
  intro t ht
  rcases mem_allThoughtsOf_set bs bi ti nT t ht with rfl | hmem
  · exact hn
  · exact h t hmem

theorem phase2Materialize_cap3 (bs : List ThoughtBranch) (q : Nat × Nat)
    (other : ThoughtData) (h : cap3 bs) :
    cap3 (phase2Materialize bs q other).1 := by
  unfold phase2Materialize
  split
  · exact cap3_set _ _ _ _ h (by simp)
  · exact h

theorem phase2Push_cap3 (emb : List (String × List ℚ)) (t : ThoughtData)
    (bs : List ThoughtBranch) (q : Nat × Nat) (other : ThoughtData)
    (h : cap3 bs) : cap3 (phase2Push emb t bs q other) := by
  unfold phase2Push
  split
  · simp only []
    split
    · exact h
    · split
      · exact cap3_set _ _ _ _ h (List.length_take_le _ _)
      · exact h
  · simp only []
    split
    · exact h
    · exact h

theorem phase2Entry_cap3 (emb : List (String × List ℚ)) (t0 : ThoughtData)
    (bs : List ThoughtBranch) (cr : CrossRefEntry) (h : cap3 bs) :
    cap3 (phase2Entry emb t0 bs cr) := by
  unfold phase2Entry
  split
  · exact h
  · split
    · exact h
    · exact phase2Push_cap3 emb t0 _ _ _ (phase2Materialize_cap3 bs _ _ h)

theorem phase2Step_cap3 (emb : List (String × List ℚ))
    (bs : List ThoughtBranch) (p : Nat × Nat) (h : cap3 bs) :
    cap3 (phase2Step emb bs p) := by
  unfold phase2Step
  split
  · exact h
  · rename_i t hsome
    split
    · exact h
    · rename_i crs hcrs
      exact foldl_preserves cap3 (phase2Entry emb t)
        (fun x a hx => phase2Entry_cap3 emb t x a hx) crs bs h

theorem phase2_cap3 (emb : List (String × List ℚ)) (bs : List ThoughtBranch)
    (h : cap3 bs) : cap3 (phase2 emb bs) :=
  foldl_preserves cap3 (phase2Step emb)
    (fun x a hx => phase2Step_cap3 emb x a hx) (positionsOf bs) bs h

/-! ## the C4 statement -/

/-- C4: after any full recompute pass every thought's cross-ref list holds
at most 6 entries and is sorted descending by score; and when every thought
has an embedding, after the direct pass and the bidirectional repair —
before multi-hop augmentation — every thought retains at most 3 direct
(non-multi-hop) entries. -/
theorem crossref_topk_bound (emb : List (String × List ℚ)) (now : ℚ)
    (bs : List ThoughtBranch) :
    (∀ t ∈ allThoughtsOf (updateAllCrossRefsAndScores emb now bs),
      (t.crossRefs.getD []).length ≤ 6 ∧
      (t.crossRefs.getD []).Pairwise
        (fun a b : CrossRefEntry => b.score ≤ a.score)) ∧
    ((∀ t ∈ allThoughtsOf bs, (mapGet emb t.id).isSome = true) →
      ∀ t ∈ allThoughtsOf (phase2 emb (phase1 emb bs)),
        ((t.crossRefs.getD []).filter
          (fun cr => cr.type != "multi-hop")).length ≤ 3) := by
  constructor
  · intro t ht
    have hmap : allThoughtsOf (updateAllCrossRefsAndScores emb now bs) =
        (allThoughtsOf (phase3 (phase2 emb (phase1 emb bs)))).map
          (scoreThought now
            (allThoughtsOf (phase3 (phase2 emb (phase1 emb bs))))) :=
      allThoughtsOf_scoringPhase now (phase3 (phase2 emb (phase1 emb bs)))
    rw [hmap, List.mem_map] at ht
    obtain ⟨t0, ht0, rfl⟩ := ht
    have hg := phase3_good (phase2 emb (phase1 emb bs)) t0 ht0
    exact ⟨hg.1, hg.2⟩
  · intro hemb t ht
    have h2 := phase2_cap3 emb (phase1 emb bs) (phase1_cap3 emb bs hemb) t ht
    exact le_trans (List.length_filter_le _ _) h2

/-- Witness for C4 at the concrete one-thought store: the passes leave the
thought with an empty cross-ref list, within both bounds. -/
theorem crossref_topk_bound_witness :
    (c4OutThought ∈ allThoughtsOf (updateAllCrossRefsAndScores c4Emb 0 [c4In]) ∧
      (c4OutThought.crossRefs.getD []).length ≤ 6 ∧
      (c4OutThought.crossRefs.getD []).Pairwise
        (fun a b : CrossRefEntry => b.score ≤ a.score)) ∧
    ((∀ t ∈ allThoughtsOf [c4In], (mapGet c4Emb t.id).isSome = true) ∧
      c4MidThought ∈ allThoughtsOf (phase2 c4Emb (phase1 c4Emb [c4In])) ∧
      ((c4MidThought.crossRefs.getD []).filter
        (fun cr => cr.type != "multi-hop")).length ≤ 3) := by
  have hmem : c4OutThought ∈
      allThoughtsOf (updateAllCrossRefsAndScores c4Emb 0 [c4In]) := by decide!
  have hemb : ∀ t ∈ allThoughtsOf [c4In],
      (mapGet c4Emb t.id).isSome = true := by decide!
  have hmid : c4MidThought ∈
      allThoughtsOf (phase2 c4Emb (phase1 c4Emb [c4In])) := by decide!
  have h := crossref_topk_bound c4Emb 0 [c4In]
  exact ⟨⟨hmem, (h.1 c4OutThought hmem).1, (h.1 c4OutThought hmem).2⟩,
    hemb, hmid, h.2 hemb c4MidThought hmid⟩


/-! ## Cross-ref symmetry (C3) -/

theorem cosineSimilarity_comm (a b : List ℚ) :
    cosineSimilarity a b = cosineSimilarity b a := by
  unfold cosineSimilarity
  simp only []
  rw [List.zipWith_comm_of_comm (· * ·) mul_comm a b,
    mul_comm (jsSqrt ((a.map (fun x => x * x)).sum))
      (jsSqrt ((b.map (fun x => x * x)).sum))]

theorem insertDesc_mem (x z : CrossRefEntry) :
    ∀ l, (z = x ∨ z ∈ l) → z ∈ insertDesc x l := by
  intro l
  induction l with
  | nil =>
    rintro (rfl | h)
    · simp [insertDesc]
    · cases h
  | cons y ys ih =>
    intro h
    simp only [insertDesc]
    by_cases hxy : x.score ≥ y.score
    · rw [if_pos hxy]
      rcases h with rfl | h2
      · exact List.mem_cons_self _ _
      · exact List.mem_cons_of_mem _ h2
    · rw [if_neg hxy]
      rcases h with rfl | h2
      · exact List.mem_cons_of_mem _ (ih (Or.inl rfl))
      · rcases List.mem_cons.mp h2 with rfl | h3
        · exact List.mem_cons_self _ _
        · exact List.mem_cons_of_mem _ (ih (Or.inr h3))

theorem mem_sortByScoreDesc (z : CrossRefEntry) :
    ∀ l, z ∈ sortByScoreDesc l ↔ z ∈ l := by
  intro l
  unfold sortByScoreDesc
  induction l with
  | nil => simp
  | cons x xs ih =>
    rw [List.foldr_cons]
    constructor
    · intro h
      rcases mem_insertDesc x z _ h with rfl | h2
      · exact List.mem_cons_self _ _
      · exact List.mem_cons_of_mem _ (ih.mp h2)
    · intro h
      rcases List.mem_cons.mp h with rfl | h2
      · exact insertDesc_mem z z _ (Or.inl rfl)
      · exact insertDesc_mem x z _ (Or.inr (ih.mpr h2))

theorem length_insertDesc (x : CrossRefEntry) :
    ∀ l, (insertDesc x l).length = l.length + 1 := by
  intro l
  induction l with
  | nil => rfl
  | cons y ys ih =>
    simp only [insertDesc]
    by_cases hxy : x.score ≥ y.score
    · rw [if_pos hxy]
      rfl
    · rw [if_neg hxy]
      simp [ih]

theorem length_sortByScoreDesc (l : List CrossRefEntry) :
    (sortByScoreDesc l).length = l.length := by
  unfold sortByScoreDesc
  induction l with
  | nil => rfl
  | cons x xs ih =>
    rw [List.foldr_cons, length_insertDesc, ih, List.length_cons]

theorem simsFor_mem_intro (emb : List (String × List ℚ))
    (all : List ThoughtData) (t u : ThoughtData) (embA embB : List ℚ)
    (hu : u ∈ all) (hne : (u.id == t.id) = false)
    (hgu : mapGet emb u.id = some embB)
    (hsim : cosineSimilarity embA embB > crossRefThreshold) :
    simEntry u.id (cosineSimilarity embA embB) ∈ simsFor emb all t embA := by
  unfold simsFor
  rw [List.mem_filterMap]
  refine ⟨u, hu, ?_⟩
  rw [if_neg (show ¬ ((u.id == t.id) = true) from by simp [hne]), hgu]
  show (if cosineSimilarity embA embB > crossRefThreshold then
      some (simEntry u.id (cosineSimilarity embA embB)) else none) = _
  rw [if_pos hsim]

theorem simsFor_mem_elim (emb : List (String × List ℚ))
    (all : List ThoughtData) (t : ThoughtData) (embA : List ℚ)
    (e : CrossRefEntry) (he : e ∈ simsFor emb all t embA) :
    ∃ u ∈ all, (u.id == t.id) = false ∧ ∃ embB,
      mapGet emb u.id = some embB ∧
      cosineSimilarity embA embB > crossRefThreshold ∧
      e.toThoughtId = u.id := by
  unfold simsFor at he
  rw [List.mem_filterMap] at he
  obtain ⟨u, hu, hf⟩ := he
  split at hf
  · cases hf
  · rename_i hne
    split at hf
    · cases hf
    · rename_i embB hgu
      simp only [] at hf
      split at hf
      · rename_i hsim
        refine ⟨u, hu, by simpa using hne, embB, hgu, hsim, ?_⟩
        obtain rfl := Option.some.inj hf
        rfl
      · cases hf

theorem findIdx?_spec {α : Type} (p : α → Bool) :
    ∀ (l : List α) (s i : Nat), List.findIdx? p l s = some i →
      s ≤ i ∧ ∃ x, l.get? (i - s) = some x ∧ p x = true := by
  intro l
  induction l with
  | nil => intro s i h; cases h
  | cons a l ih =>
    intro s i h
    simp only [List.findIdx?] at h
    by_cases hp : p a
    · rw [if_pos hp] at h
      obtain rfl := Option.some.inj h
      exact ⟨le_refl s, a, by simp, hp⟩
    · rw [if_neg hp] at h
      obtain ⟨hle, x, hx, hpx⟩ := ih (s + 1) i h
      refine ⟨le_trans (Nat.le_succ s) hle, x, ?_, hpx⟩
      rw [show i - s = (i - (s + 1)) + 1 by omega]
      simpa using hx

theorem findThoughtPosAux_spec (tid : String) :
    ∀ (bs : List ThoughtBranch) (bi : Nat) (q : Nat × Nat),
      findThoughtPosAux tid bi bs = some q →
      bi ≤ q.1 ∧ ∃ b, bs.get? (q.1 - bi) = some b ∧
        ∃ t, b.thoughts.get? q.2 = some t ∧ (t.id == tid) = true := by
  intro bs
  induction bs with
  | nil => intro bi q h; cases h
  | cons b rest ih =>
    intro bi q h
    rw [findThoughtPosAux] at h
    split at h
    · rename_i ti hti
      obtain rfl := Option.some.inj h
      obtain ⟨_, t, ht, hp⟩ := findIdx?_spec _ b.thoughts 0 ti hti
      rw [Nat.sub_zero] at ht
      exact ⟨le_refl bi, b, by simp, t, ht, hp⟩
    · obtain ⟨hle, b', hb', t, ht, hp⟩ := ih (bi + 1) q h
      refine ⟨le_trans (Nat.le_succ bi) hle, b', ?_, t, ht, hp⟩
      rw [show q.1 - bi = (q.1 - (bi + 1)) + 1 by omega]
      simpa using hb'

theorem findThoughtPos_spec (bs : List ThoughtBranch) (tid : String)
    (q : Nat × Nat) (h : findThoughtPos bs tid = some q) :
    ∃ t, getThoughtAt bs q.1 q.2 = some t ∧ t.id = tid := by
  obtain ⟨_, b, hb, t, ht, hp⟩ := findThoughtPosAux_spec tid bs 0 q h
  rw [Nat.sub_zero] at hb
  refine ⟨t, ?_, by simpa using hp⟩
  unfold getThoughtAt
  rw [hb]
  exact ht

theorem getThoughtAt_mem (bs : List ThoughtBranch) (bi ti : Nat)
    (t : ThoughtData) (h : getThoughtAt bs bi ti = some t) :
    t ∈ allThoughtsOf bs := by
  unfold getThoughtAt at h
  rcases hb : bs.get? bi with _ | b
  · rw [hb] at h; cases h
  · rw [hb] at h
    exact List.mem_flatMap.mpr ⟨b, List.get?_mem hb, List.get?_mem h⟩

theorem phase2Entry_noop (emb : List (String × List ℚ)) (t : ThoughtData)
    (bs : List ThoughtBranch) (cr : CrossRefEntry)
    (hm : ∀ u ∈ allThoughtsOf bs, u.id = cr.toThoughtId →
      hasRefTo u t.id = true)
    (hs : AllRefsSome bs) : phase2Entry emb t bs cr = bs := by
  unfold phase2Entry
  split
  · rfl
  · rename_i q hq
    split
    · rfl
    · rename_i other hother
      obtain ⟨o2, ho2, hid⟩ := findThoughtPos_spec bs cr.toThoughtId q hq
      rw [hother] at ho2
      obtain rfl := Option.some.inj ho2
      have hmem : other ∈ allThoughtsOf bs :=
        getThoughtAt_mem bs q.1 q.2 other hother
      have hsome := hs other hmem
      obtain ⟨crs, hcr⟩ := Option.isSome_iff_exists.mp hsome
      have hmat : phase2Materialize bs q other = (bs, other) := by
        unfold phase2Materialize
        rw [hcr]
      rw [hmat]
      show phase2Push emb t bs q other = bs
      have href : (List.find? (fun x => x.toThoughtId == t.id)
          (other.crossRefs.getD [])).isSome = true := hm other hmem hid
      unfold phase2Push
      rw [if_pos href]

theorem phase2Step_noop (emb : List (String × List ℚ))
    (bs : List ThoughtBranch) (p : Nat × Nat)
    (hm : MutualRefs bs) (hs : AllRefsSome bs) : phase2Step emb bs p = bs := by
  unfold phase2Step
  split
  · rfl
  · rename_i t hsome
    split
    · rfl
    · rename_i crs hcrs
      have hmemt : t ∈ allThoughtsOf bs := getThoughtAt_mem bs p.1 p.2 t hsome
      have hfold : ∀ l : List CrossRefEntry,
          (∀ cr ∈ l, cr ∈ t.crossRefs.getD []) →
          l.foldl (phase2Entry emb t) bs = bs := by
        intro l
        induction l with
        | nil => intro _; rfl
        | cons cr l ih =>
          intro hsub
          rw [List.foldl_cons,
            phase2Entry_noop emb t bs cr
              (fun u hu hid => hm t hmemt cr (hsub cr (List.mem_cons_self _ _)) u hu hid)
              hs]
          exact ih (fun cr2 h2 => hsub cr2 (List.mem_cons_of_mem _ h2))
      exact hfold crs (by rw [hcrs]; intro cr h; simpa using h)

theorem phase2_noop (emb : List (String × List ℚ)) (bs : List ThoughtBranch)
    (hm : MutualRefs bs) (hs : AllRefsSome bs) : phase2 emb bs = bs := by
  unfold phase2
  have : ∀ ps : List (Nat × Nat), ps.foldl (phase2Step emb) bs = bs := by
    intro ps
    induction ps with
    | nil => rfl
    | cons p ps ih =>
      rw [List.foldl_cons, phase2Step_noop emb bs p hm hs]
      exact ih
  exact this _

theorem phase1_hasRef (emb : List (String × List ℚ)) (bs : List ThoughtBranch)
    (hcand : ∀ t ∈ allThoughtsOf bs,
      (simsFor emb (allThoughtsOf bs) t ((mapGet emb t.id).getD [])).length ≤ 3)
    (u : ThoughtData) (hu : u ∈ allThoughtsOf bs)
    (tid : String) (eT eU : List ℚ)
    (hgT : mapGet emb tid = some eT) (hgU : mapGet emb u.id = some eU)
    (hne : (u.id == tid) = false)
    (hsim : cosineSimilarity eT eU > crossRefThreshold) :
    ∀ t ∈ allThoughtsOf (phase1 emb bs), t.id = tid →
      hasRefTo t u.id = true := by
  intro t ht hid
  rw [allThoughtsOf_phase1, List.mem_map] at ht
  obtain ⟨t1, ht1, rfl⟩ := ht
  rw [phase1Thought_id] at hid
  have hgT1 : mapGet emb t1.id = some eT := by rw [hid]; exact hgT
  rw [phase1Thought_char emb _ t1 eT hgT1]
  show ((((sortByScoreDesc (simsFor emb (allThoughtsOf bs) t1 eT)).take
      3)).find? (fun x => x.toThoughtId == u.id)).isSome = true
  rw [List.take_of_length_le
    (by rw [length_sortByScoreDesc]
        have hc := hcand t1 ht1
        rw [hgT1] at hc
        exact hc)]
  rw [List.find?_isSome]
  refine ⟨simEntry u.id (cosineSimilarity eT eU), ?_, ?_⟩
  · rw [mem_sortByScoreDesc]
    have hne1 : (u.id == t1.id) = false := by rw [hid]; exact hne
    exact simsFor_mem_intro emb _ t1 u eT eU hu hne1 hgU hsim
  · show ((simEntry u.id (cosineSimilarity eT eU)).toThoughtId == u.id) = true
    simp [simEntry]

theorem phase1_allSome (emb : List (String × List ℚ)) (bs : List ThoughtBranch)
    (hembAll : ∀ t ∈ allThoughtsOf bs, (mapGet emb t.id).isSome = true) :
    AllRefsSome (phase1 emb bs) := by
  intro t ht
  rw [allThoughtsOf_phase1, List.mem_map] at ht
  obtain ⟨t1, ht1, rfl⟩ := ht
  obtain ⟨e, he⟩ := Option.isSome_iff_exists.mp (hembAll t1 ht1)
  rw [phase1Thought_char emb _ t1 e he]
  rfl

theorem phase1_mutual (emb : List (String × List ℚ)) (bs : List ThoughtBranch)
    (hembAll : ∀ t ∈ allThoughtsOf bs, (mapGet emb t.id).isSome = true)
    (hcand : ∀ t ∈ allThoughtsOf bs,
      (simsFor emb (allThoughtsOf bs) t ((mapGet emb t.id).getD [])).length ≤ 3) :
    MutualRefs (phase1 emb bs) := by
  intro t ht e hecrs u hu hid
  rw [allThoughtsOf_phase1, List.mem_map] at ht
  obtain ⟨t1, ht1, rfl⟩ := ht
  obtain ⟨eT, hgT⟩ := Option.isSome_iff_exists.mp (hembAll t1 ht1)
  rw [phase1Thought_char emb _ t1 eT hgT] at hecrs
  have hecrs2 : e ∈ (sortByScoreDesc
      (simsFor emb (allThoughtsOf bs) t1 eT)).take 3 := hecrs
  have he2 : e ∈ simsFor emb (allThoughtsOf bs) t1 eT :=
    (mem_sortByScoreDesc _ _).mp (List.mem_of_mem_take hecrs2)
  obtain ⟨u0, hu0, hneu0, eU, hgu0, hsimu0, hetid⟩ :=
    simsFor_mem_elim emb _ t1 eT e he2
  rw [phase1Thought_id]
  have hid2 : u.id = u0.id := by
    rw [hid, hetid]
  have hgu : mapGet emb u.id = some eU := by rw [hid2]; exact hgu0
  have hneT : (t1.id == u.id) = false := by
    rw [beq_eq_false_iff_ne] at hneu0 ⊢
    rw [hid2]
    exact fun h => hneu0 h.symm
  have hsimc : cosineSimilarity eU eT > crossRefThreshold := by
    rw [cosineSimilarity_comm]
    exact hsimu0
  exact phase1_hasRef emb bs hcand t1 ht1 u.id eU eT hgu hgT hneT hsimc
    u hu rfl

/-- C3 (amended): the symmetry invariant holds whenever no candidate list
overflows the top-3 truncation.  If `A` and `B` are distinct stored
thoughts, both embedded, with pairwise similarity above the 0.7 threshold,
and every thought of the store has at most 3 above-threshold candidates,
then after the direct pass and the bidirectional repair every thought
carrying `A`'s id points at `B` and vice versa (the repair pass provably
changes nothing: with no truncation all references are already mutual). -/
theorem crossref_symmetry_bounded_candidates
    (emb : List (String × List ℚ)) (bs : List ThoughtBranch)
    (A B : ThoughtData) (eA eB : List ℚ)
    (hA : A ∈ allThoughtsOf bs) (hB : B ∈ allThoughtsOf bs)
    (hAB : (A.id == B.id) = false)
    (hgA : mapGet emb A.id = some eA) (hgB : mapGet emb B.id = some eB)
    (hembAll : ∀ t ∈ allThoughtsOf bs, (mapGet emb t.id).isSome = true)
    (hcand : ∀ t ∈ allThoughtsOf bs,
      (simsFor emb (allThoughtsOf bs) t ((mapGet emb t.id).getD [])).length ≤ 3)
    (hsim : cosineSimilarity eA eB > crossRefThreshold) :
    ∀ t ∈ allThoughtsOf (phase2 emb (phase1 emb bs)),
      (t.id = A.id → hasRefTo t B.id = true) ∧
      (t.id = B.id → hasRefTo t A.id = true) := by
  rw [phase2_noop emb (phase1 emb bs)
    (phase1_mutual emb bs hembAll hcand) (phase1_allSome emb bs hembAll)]
  intro t ht
  constructor
  · intro hid
    have hBA : (B.id == A.id) = false := by
      rw [beq_eq_false_iff_ne] at hAB ⊢
      exact fun h => hAB h.symm
    exact phase1_hasRef emb bs hcand B hB A.id eA eB hgA hgB hBA hsim t ht hid
  · intro hid
    have hsim2 : cosineSimilarity eB eA > crossRefThreshold := by
      rw [cosineSimilarity_comm]
      exact hsim
    exact phase1_hasRef emb bs hcand A hA B.id eB eA hgB hgA hAB hsim2 t ht hid

/-- C3 (counterexample): in the eight-thought store `c3Branch` with
embeddings `c3Emb`, the thoughts `A` and `B` both have embeddings and their
cosine similarity 55/73 exceeds the direct threshold 0.7, yet after a full
recompute pass neither thought's cross-ref list contains an entry pointing
at the other: each endpoint's top-3 direct slots are taken by closer
same-cluster neighbours, the repair pass only reinforces existing edges,
and no multi-hop path crosses the clusters. -/
theorem crossref_symmetry_fails_at_topk :
    ((mapGet c3Emb "A").isSome ∧ (mapGet c3Emb "B").isSome) ∧
    cosineSimilarity ((mapGet c3Emb "A").getD [])
      ((mapGet c3Emb "B").getD []) > crossRefThreshold ∧
    (∃ t ∈ allThoughtsOf [c3Branch], t.id = "A") ∧
    (∃ t ∈ allThoughtsOf [c3Branch], t.id = "B") ∧
    (∀ t ∈ allThoughtsOf (updateAllCrossRefsAndScores c3Emb 0 [c3Branch]),
      (t.id = "A" → hasRefTo t "B" = false) ∧
      (t.id = "B" → hasRefTo t "A" = false)) := by
  decide!

/-- Witness for the amended C3 theorem: in the two-thought store the passes
leave `A` and `B` pointing at each other. -/
theorem crossref_symmetry_bounded_candidates_witness :
    hasRefTo c3wOutA "B" = true ∧ hasRefTo c3wOutB "A" = true := by
  have H := crossref_symmetry_bounded_candidates c3wEmb [c3wBranch]
    (sampleThought "A" "wa" "m2") (sampleThought "B" "wb" "m2")
    [1, 0] [55/73, 48/73]
    (by decide!) (by decide!) (by decide!) (by decide!) (by decide!)
    (by decide!) (by decide!) (by decide!)
  exact ⟨(H c3wOutA (by decide!)).1 (by decide!),
    (H c3wOutB (by decide!)).2 (by decide!)⟩


end BranchThinking
